import Mathlib

/-!
The annotations sidebar of evince (`shell/ev-sidebar-annotations.c`).

A shallow embedding of the colour grouping pass, of the publication of the
two-level tree and of the load controller, followed by the properties proved
about them.

Conventions of the embedding.

* A `gdouble` is modelled by the rational number it denotes. Every finite
  double is a rational, and `==` on finite doubles is equality of the denoted
  values; infinities and NaN are outside the model.
* A C pointer is modelled by what it points to. Where the source keeps a
  pointer in order to mutate the pointee later (the result of
  `linked_list_find`), the pointer is the position of the node in its list.
* Globals and widget state are passed explicitly.
-/

namespace Evince

/-! ## Data model -/

/-- Colour with four `gdouble` channels (`GdkRGBA`). -/
structure GdkRGBA where
  red : ℚ
  green : ℚ
  blue : ℚ
  alpha : ℚ
deriving DecidableEq

/-- Page area of a mapping (`EvRectangle`); it is carried along and never read. -/
structure EvRectangle where
  x1 : ℚ
  y1 : ℚ
  x2 : ℚ
  y2 : ℚ
deriving DecidableEq

/-- Values of `ev_annotation_text_markup_get_markup_type`. The four named
values are the ones the source switches on; `UNKNOWN` stands for every other
value of the enumeration type. -/
inductive EvAnnotationTextMarkupType where
  | HIGHLIGHT
  | STRIKE_OUT
  | UNDERLINE
  | SQUIGGLY
  | UNKNOWN
deriving DecidableEq

/-- Dynamic class of an annotation object, as seen by the type checks
`EV_IS_ANNOTATION_TEXT`, `EV_IS_ANNOTATION_ATTACHMENT` and
`EV_IS_ANNOTATION_TEXT_MARKUP`. -/
inductive EvAnnotationType where
  | TEXT
  | ATTACHMENT
  | TEXT_MARKUP (markup_type : EvAnnotationTextMarkupType)
  | OTHER
deriving DecidableEq

/-- The fields of an annotation object that the sidebar reads. `is_markup`
is the answer of `EV_IS_ANNOTATION_MARKUP`; `modified` and `contents` are
`none` when the getter returns `NULL`. -/
structure EvAnnotation where
  type : EvAnnotationType
  is_markup : Bool
  rgba : GdkRGBA
  label : String
  modified : Option String
  contents : Option String
deriving DecidableEq

/-- An `EvMapping`: a page area and the annotation it belongs to. -/
structure EvMapping where
  area : EvRectangle
  data : EvAnnotation
deriving DecidableEq

/-- An `EvMappingList`: the mappings of one page. -/
structure EvMappingList where
  page : Nat
  list : List EvMapping
deriving DecidableEq

def ev_mapping_list_get_list (mapping_list : EvMappingList) : List EvMapping :=
  mapping_list.list

def EV_IS_ANNOTATION_MARKUP (annot : EvAnnotation) : Bool :=
  annot.is_markup

def ev_annotation_get_rgba (annot : EvAnnotation) : GdkRGBA :=
  annot.rgba

def ev_annotation_markup_get_label (annot : EvAnnotation) : String :=
  annot.label

def ev_annotation_get_modified (annot : EvAnnotation) : Option String :=
  annot.modified

def ev_annotation_get_contents (annot : EvAnnotation) : Option String :=
  annot.contents

/-! ## The hand-rolled linked list -/

/-- The list `_LinkedList`: its node count and the data of its nodes from
`head` to `tail`. -/
structure _LinkedList (α : Type) where
  size : Nat
  nodes : List α
deriving DecidableEq

def linked_list_init {α : Type} : _LinkedList α :=
  { size := 0, nodes := [] }

/-- Appends a node after `tail` and counts it. -/
def linked_list_append {α : Type} (linked_list : _LinkedList α) (data : α) : _LinkedList α :=
  { size := linked_list.size + 1, nodes := linked_list.nodes ++ [data] }

/-- The loop of `linked_list_find`, started at a node: the position, counted
from that node, of the first node on which `predicate` answers `0`. -/
def linked_list_find_from {α : Type} (predicate : α → Int) : List α → Option Nat
  | [] => none
  | data :: rest =>
    if predicate data = 0 then some 0
    else (linked_list_find_from predicate rest).map (· + 1)

/-- The data pointer of the first node, from `head`, on which `predicate`
answers `0`, given as the position of that node; `none` is `NULL`. -/
def linked_list_find {α : Type} (list : _LinkedList α) (predicate : α → Int) : Option Nat :=
  linked_list_find_from predicate list.nodes

/-- A write through the data pointer of the node at position `p`. -/
def node_data_update {α : Type} (f : α → α) : List α → Nat → List α
  | [], _ => []
  | data :: rest, 0 => f data :: rest
  | data :: rest, p + 1 => data :: node_data_update f rest p

/-! ## Colour groups -/

/-- One colour group (`_ColorAnnotations`): the key and the member list. -/
structure _ColorAnnotations where
  rgba : GdkRGBA
  annotations : _LinkedList EvAnnotation
deriving DecidableEq

def color_annotations_new : _ColorAnnotations :=
  { rgba := { red := 0, green := 0, blue := 0, alpha := 0 },
    annotations := linked_list_init }

/-- The predicate handed to `linked_list_find`. The source reads the node
data, a `_ColorAnnotations`, through a `GdkRGBA` pointer, that is, it reads
the first member `rgba`; the comparison target is the global
`gdkrgba_comparator_source`, passed here as the first argument. -/
def gdkrgba_comparator (gdkrgba_comparator_source : GdkRGBA) (data : _ColorAnnotations) : Int :=
  let color := data.rgba
  if gdkrgba_comparator_source.red = color.red ∧ gdkrgba_comparator_source.green = color.green ∧
      gdkrgba_comparator_source.blue = color.blue ∧ gdkrgba_comparator_source.alpha = color.alpha
  then 0 else 1

/-- What the grouping loop of `job_finished_callback` reads and writes: the
global comparison target and the local list `map` of colour groups. -/
structure GroupingState where
  gdkrgba_comparator_source : GdkRGBA
  map : _LinkedList _ColorAnnotations
deriving DecidableEq

/-- Body of the inner `for` loop of the grouping pass, for one mapping of a
page. -/
def group_mapping (st : GroupingState) (mapping : EvMapping) : GroupingState :=
  let annot := mapping.data
  if ¬ EV_IS_ANNOTATION_MARKUP annot = true then st
  else
    let rgba := ev_annotation_get_rgba annot
    let st : GroupingState := { st with gdkrgba_comparator_source := rgba }
    match linked_list_find st.map (gdkrgba_comparator st.gdkrgba_comparator_source) with
    | none =>
      let color_annot_da : _ColorAnnotations := { color_annotations_new with rgba := rgba }
      let color_annot_da : _ColorAnnotations :=
        { color_annot_da with
          annotations := linked_list_append color_annot_da.annotations annot }
      { st with map := linked_list_append st.map color_annot_da }
    | some color_annot =>
      { st with
        map :=
          { st.map with
            nodes :=
              node_data_update
                (fun c => { c with annotations := linked_list_append c.annotations annot })
                st.map.nodes color_annot } }

/-- The grouping pass of `job_finished_callback`: the outer loop over the
page lists of `job->annots`, the inner loop over the mappings of a page,
starting from the empty `map`. The first argument is the value the global
`gdkrgba_comparator_source` holds when the pass starts. -/
def grouping_pass (gdkrgba_comparator_source : GdkRGBA) (annots : List EvMappingList) :
    GroupingState :=
  annots.foldl
    (fun st mapping_list => (ev_mapping_list_get_list mapping_list).foldl group_mapping st)
    { gdkrgba_comparator_source := gdkrgba_comparator_source, map := linked_list_init }

/-- The colour groups built by the grouping pass, in list order. -/
def color_groups (gdkrgba_comparator_source : GdkRGBA) (annots : List EvMappingList) :
    List _ColorAnnotations :=
  (grouping_pass gdkrgba_comparator_source annots).map.nodes

/-! ## Vocabulary of the specification -/

/-- The annotations of the input, page by page and in in-page order. -/
def flattened_annots (annots : List EvMappingList) : List EvAnnotation :=
  (annots.map (fun mapping_list => mapping_list.list.map (fun mapping => mapping.data))).flatten

/-- The markup-capable annotations of the input, in input order. -/
def markup_annots (annots : List EvMappingList) : List EvAnnotation :=
  (flattened_annots annots).filter (fun annot => annot.is_markup)

/-- A sequence with every repeated element removed after its first
occurrence. -/
def remove_repeats {α : Type} [DecidableEq α] : List α → List α
  | [] => []
  | x :: xs => x :: remove_repeats (xs.filter (fun y => decide (y ≠ x)))
termination_by l => l.length
decreasing_by
  simp only [List.length_cons]
  exact Nat.lt_succ_of_le (List.length_filter_le _ _)


/-! ## Colour swatch: `rgba_to_hex` -/

/-- Rounding of a rational to the nearest integer, ties to the even one. -/
def round_half_even (x : ℚ) : ℤ :=
  let f := ⌊x⌋
  if x - f < 1 / 2 then f
  else if 1 / 2 < x - f then f + 1
  else if f % 2 = 0 then f
  else f + 1

/-- Exponent of the unit in the last place of binary64 at `x`: 53 significant
bits, and `2 ^ (-1074)` for the subnormal numbers. -/
def binary64_ulp_exponent (x : ℚ) : ℤ :=
  max (Int.log 2 |x| - 52) (-1074)

/-- Rounding of an exact result to binary64, round to nearest, ties to even
(the default rounding mode). The exponent range is not bounded above: a
result beyond the largest double is not turned into an infinity. -/
def binary64_round (x : ℚ) : ℚ :=
  let e := binary64_ulp_exponent x
  (round_half_even (x / (2 : ℚ) ^ e) : ℚ) * (2 : ℚ) ^ e

/-- The product of two doubles, evaluated in binary64 (the evaluation method
of x86-64 and of every target with `FLT_EVAL_METHOD` 0): the exact product,
rounded. -/
def double_mul (a b : ℚ) : ℚ :=
  binary64_round (a * b)

/-- Truncation toward zero: the fractional part is discarded. -/
def truncate (x : ℚ) : ℤ :=
  if 0 ≤ x then ⌊x⌋ else ⌈x⌉

/-- Conversion of a double to `int`: truncation toward zero. A value outside
the range of `int` makes the conversion undefined in C; the model reduces it
into the 32-bit range. -/
def double_to_int (x : ℚ) : ℤ :=
  Int.bmod (truncate x) (2 ^ 32)

/-- The conversion `%02x` of `printf` applied to an `int`: the value is read
as `unsigned int`, written in lowercase hexadecimal and padded with zeros on
the left to at least two digits. -/
def format_02x (n : ℤ) : String :=
  let digits := Nat.toDigits 16 (n % 2 ^ 32).toNat
  String.mk (List.replicate (2 - digits.length) '0' ++ digits)

def rgba_to_hex (rgba : GdkRGBA) : String :=
  let red := double_to_int (double_mul rgba.red 255)
  let green := double_to_int (double_mul rgba.green 255)
  let blue := double_to_int (double_mul rgba.blue 255)
  let alpha := double_to_int (double_mul rgba.alpha 255)
  "#" ++ format_02x red ++ format_02x green ++ format_02x blue ++ format_02x alpha

/-! ## Rows and models of the tree view -/

/-- An untyped pointer stored in a model column, together with what it really
points to. -/
inductive gpointer where
  | NULL
  | to_mapping (mapping : EvMapping)
  | to_annot (annot : EvAnnotation)
deriving DecidableEq

/-- The four columns of a row: `COLUMN_MARKUP`, `COLUMN_ICON`,
`COLUMN_ANNOT_MAPPING`, `COLUMN_TOOLTIP`. A string column that was never set
is `none`, a pointer column that was never set is `NULL`. -/
structure Row where
  markup : Option String
  icon : Option String
  annot_mapping : gpointer
  tooltip : Option String
deriving DecidableEq

/-- A top-level row of the tree store with its child rows. -/
structure TreeNode where
  row : Row
  children : List Row
deriving DecidableEq

/-- The model shown by the tree view: the one-level list store of
`ev_sidebar_annotations_create_simple_model`, or the two-level tree store of
`job_finished_callback`. -/
inductive GtkTreeModel where
  | list_store (rows : List Row)
  | tree_store (nodes : List TreeNode)
deriving DecidableEq

/-- The row at a path (`gtk_tree_model_get_iter`), if the path names one. -/
def gtk_tree_model_get_iter (model : GtkTreeModel) (path : List Nat) : Option Row :=
  match model, path with
  | GtkTreeModel.list_store rows, [i] => rows[i]?
  | GtkTreeModel.tree_store nodes, [i] => (nodes[i]?).map (fun node => node.row)
  | GtkTreeModel.tree_store nodes, [i, j] => (nodes[i]?).bind (fun node => node.children[j]?)
  | _, _ => none

/-- The translation `_(...)` of a message; the model runs untranslated. -/
def gettext (msgid : String) : String :=
  msgid

def ev_sidebar_annotations_create_simple_model (message : String) : GtkTreeModel :=
  let markup := "<span size=\"larger\" style=\"italic\">" ++ message ++ "</span>"
  GtkTreeModel.list_store
    [{ markup := some markup, icon := none, annot_mapping := gpointer.NULL, tooltip := none }]

/-- Modelled from the spec: the identifier of the stock text-annotation icon.
The header `ev-stock-icons.h`, which gives the constant its value, is not
among the sources; the model writes the identifier as the name of the
constant. -/
def EV_STOCK_ANNOT_TEXT : String :=
  "EV_STOCK_ANNOT_TEXT"

/-- Modelled from the spec: the identifier of the stock squiggly icon. The
header `ev-stock-icons.h`, which gives the constant its value, is not among
the sources; the model writes the identifier as the name of the constant. -/
def EV_STOCK_ANNOT_SQUIGGLY : String :=
  "EV_STOCK_ANNOT_SQUIGGLY"

def EV_IS_ANNOTATION_TEXT (annot : EvAnnotation) : Bool :=
  decide (annot.type = EvAnnotationType.TEXT)

def EV_IS_ANNOTATION_ATTACHMENT (annot : EvAnnotation) : Bool :=
  decide (annot.type = EvAnnotationType.ATTACHMENT)

def EV_IS_ANNOTATION_TEXT_MARKUP (annot : EvAnnotation) : Bool :=
  match annot.type with
  | EvAnnotationType.TEXT_MARKUP _ => true
  | _ => false

/-- The markup type of a text-markup annotation. The source calls it only
after `EV_IS_ANNOTATION_TEXT_MARKUP` answered true. -/
def ev_annotation_text_markup_get_markup_type (annot : EvAnnotation) :
    EvAnnotationTextMarkupType :=
  match annot.type with
  | EvAnnotationType.TEXT_MARKUP markup_type => markup_type
  | _ => EvAnnotationTextMarkupType.UNKNOWN

/-- Body of the inner `while` loop of the publication: the leaf row built for
one member of a group. The back-reference column receives `annot_node->data`,
which is the annotation itself. -/
def leaf_row (annot : EvAnnotation) : Row :=
  let label := ev_annotation_markup_get_label annot
  let modified := ev_annotation_get_modified annot
  let contents := ev_annotation_get_contents annot
  let tooltip :=
    match modified with
    | some modified => "<span weight=\"bold\">" ++ label ++ "</span>\n" ++ modified
    | none => "<span weight=\"bold\">" ++ label ++ "</span>"
  let markup :=
    match contents with
    | some contents => contents
    | none => tooltip
  let icon_name : Option String :=
    if EV_IS_ANNOTATION_TEXT annot = true then some EV_STOCK_ANNOT_TEXT
    else if EV_IS_ANNOTATION_ATTACHMENT annot = true then some "mail-attachment-symbolic"
    else if EV_IS_ANNOTATION_TEXT_MARKUP annot = true then
      match ev_annotation_text_markup_get_markup_type annot with
      | EvAnnotationTextMarkupType.HIGHLIGHT => some "format-justify-left-symbolic"
      | EvAnnotationTextMarkupType.STRIKE_OUT => some "format-text-strikethrough-symbolic"
      | EvAnnotationTextMarkupType.UNDERLINE => some "format-text-underline-symbolic"
      | EvAnnotationTextMarkupType.SQUIGGLY => some EV_STOCK_ANNOT_SQUIGGLY
      | EvAnnotationTextMarkupType.UNKNOWN => none
    else none
  { markup := some markup, icon := icon_name, annot_mapping := gpointer.to_annot annot,
    tooltip := some tooltip }

/-- Body of the outer `while` loop of the publication, for one colour group:
the group row is appended with its swatch, one leaf is appended under it per
member, and the group row is removed again when no leaf was appended
(`found` stayed false). -/
def publish_group (model : List TreeNode) (annots : _ColorAnnotations) : List TreeNode :=
  let color_hex := rgba_to_hex annots.rgba
  let tag := "<span background=\"" ++ color_hex ++ "\" foreground=\"white\">*****</span>"
  let iter : TreeNode :=
    { row := { markup := some tag, icon := none, annot_mapping := gpointer.NULL,
               tooltip := none },
      children := [] }
  let result := annots.annotations.nodes.foldl
    (fun (acc : TreeNode × Bool) annot =>
      ({ acc.1 with children := acc.1.children ++ [leaf_row annot] }, true))
    (iter, false)
  if result.2 = false then model else model ++ [result.1]

/-- The publication loop of `job_finished_callback` over the list `map`,
starting from the empty tree store. -/
def publish_groups (map : _LinkedList _ColorAnnotations) : List TreeNode :=
  map.nodes.foldl publish_group []

/-! ## Widget state and the objects around the sidebar -/

inductive GtkSelectionMode where
  | NONE
  | SINGLE
  | BROWSE
  | MULTIPLE
deriving DecidableEq

/-- The tree view `priv->tree_view` with its selection object: the model it
shows, the selection mode, the path of the selected row, and how many times
`selection_changed_cb` and `sidebar_tree_button_press_cb` are connected to
the signals `changed` and `button-press-event`. -/
structure GtkTreeView where
  model : GtkTreeModel
  selection_mode : GtkSelectionMode
  selected : Option (List Nat)
  changed_handlers : Nat
  button_press_handlers : Nat
deriving DecidableEq

/-- A live `EvJobAnnots` object: its identity, its reference count and
whether `job_finished_callback` is connected to its signal `finished` for
this sidebar. -/
structure JobObject where
  id : Nat
  ref_count : Nat
  finished_handler : Bool
deriving DecidableEq

structure GdkRectangle where
  x : ℤ
  y : ℤ
  width : ℤ
  height : ℤ
deriving DecidableEq

/-- What the sidebar sends to its collaborators: the signal
`annot-activated` with its pointer argument, the call of
`ev_window_handle_annot_popup`, and the call of `gtk_menu_popup_at_rect`. -/
inductive Effect where
  | annot_activated (mapping : gpointer)
  | handle_annot_popup (annot : EvAnnotation)
  | menu_popup_at_rect (rect : GdkRectangle)
deriving DecidableEq

/-- The private data of the sidebar (`_EvSidebarAnnotationsPrivate`).
`document` and `job` hold the identity of the object pointed to, `popup`
tells whether the menu widget exists. -/
structure EvSidebarAnnotationsPrivate where
  document : Option Nat
  tree_view : GtkTreeView
  popup : Bool
  job : Option Nat
  selection_changed_id : Nat
deriving DecidableEq

/-- The program state: the sidebar, the global `gdkrgba_comparator_source`,
the live job objects, the allocation counters for job objects and signal
handler ids, and the log of what was sent out, oldest first. -/
structure Sidebar where
  priv : EvSidebarAnnotationsPrivate
  gdkrgba_comparator_source : GdkRGBA
  jobs : List JobObject
  next_job : Nat
  next_handler_id : Nat
  emitted : List Effect
deriving DecidableEq

/-- The state after `ev_sidebar_annotations_init`: the tree view shows the
`Loading…` list model, nothing can be selected, no job exists. -/
def ev_sidebar_annotations_init : Sidebar :=
  let loading_model := ev_sidebar_annotations_create_simple_model (gettext "Loading…")
  { priv :=
      { document := none,
        tree_view :=
          { model := loading_model, selection_mode := GtkSelectionMode.NONE, selected := none,
            changed_handlers := 0, button_press_handlers := 0 },
        popup := false,
        job := none,
        selection_changed_id := 0 },
    gdkrgba_comparator_source := { red := 0, green := 0, blue := 0, alpha := 0 },
    jobs := [],
    next_job := 0,
    next_handler_id := 1,
    emitted := [] }

/-- Drops one reference of the job object `job`; the object is finalized,
with its handler connections, when the last reference goes. -/
def g_object_unref (jobs : List JobObject) (job : Nat) : List JobObject :=
  jobs.filterMap (fun o =>
    if o.id = job then
      (if o.ref_count ≤ 1 then none else some { o with ref_count := o.ref_count - 1 })
    else some o)

def g_object_ref (jobs : List JobObject) (job : Nat) : List JobObject :=
  jobs.map (fun o => if o.id = job then { o with ref_count := o.ref_count + 1 } else o)

/-- Disconnects `job_finished_callback` of this sidebar from the job object
`job`. -/
def g_signal_handlers_disconnect_by_func (jobs : List JobObject) (job : Nat) : List JobObject :=
  jobs.map (fun o => if o.id = job then { o with finished_handler := false } else o)

/-- Connects `job_finished_callback` of this sidebar to the signal `finished`
of the job object `job`. -/
def g_signal_connect_finished (jobs : List JobObject) (job : Nat) : List JobObject :=
  jobs.map (fun o => if o.id = job then { o with finished_handler := true } else o)

/-- Modelled from the spec: the scheduler (`ev-job-scheduler.c`, not among the
sources) runs a pushed request out of line; it keeps the job alive with a
reference of its own until it has delivered the completion notification. -/
def ev_job_scheduler_push_job (jobs : List JobObject) (job : Nat) : List JobObject :=
  g_object_ref jobs job

def gtk_tree_view_set_model (tree_view : GtkTreeView) (model : GtkTreeModel) : GtkTreeView :=
  { tree_view with model := model, selected := none }

def ev_sidebar_annotations_load (sidebar_annots : Sidebar) : Sidebar :=
  let priv := sidebar_annots.priv
  let jobs :=
    match priv.job with
    | some job =>
      g_object_unref (g_signal_handlers_disconnect_by_func sidebar_annots.jobs job) job
    | none => sidebar_annots.jobs
  let job := sidebar_annots.next_job
  let jobs := jobs ++ [{ id := job, ref_count := 1, finished_handler := false }]
  let jobs := g_signal_connect_finished jobs job
  let jobs := ev_job_scheduler_push_job jobs job
  { sidebar_annots with
    priv := { priv with job := some job },
    jobs := jobs,
    next_job := job + 1,
    next_handler_id := sidebar_annots.next_handler_id + 1 }

def ev_sidebar_annotations_annot_added (sidebar_annots : Sidebar) : Sidebar :=
  ev_sidebar_annotations_load sidebar_annots

def ev_sidebar_annotations_annot_changed (sidebar_annots : Sidebar) : Sidebar :=
  ev_sidebar_annotations_load sidebar_annots

def ev_sidebar_annotations_annot_removed (sidebar_annots : Sidebar) : Sidebar :=
  ev_sidebar_annotations_load sidebar_annots

/-- The handler of `notify::document`; the second argument is the answer of
`EV_IS_DOCUMENT_ANNOTATIONS` for the new document. -/
def ev_sidebar_annotations_document_changed_cb (document : Nat)
    (is_document_annotations : Bool) (sidebar_annots : Sidebar) : Sidebar :=
  if is_document_annotations = false then sidebar_annots
  else
    ev_sidebar_annotations_load
      { sidebar_annots with priv := { sidebar_annots.priv with document := some document } }

/-- The handler of the signal `finished` of `job`, whose result
`job->annots` is the list `annots`. -/
def job_finished_callback (job : Nat) (annots : List EvMappingList) (sidebar_annots : Sidebar) :
    Sidebar :=
  let priv := sidebar_annots.priv
  match annots with
  | [] =>
    let list :=
      ev_sidebar_annotations_create_simple_model (gettext "Document contains no annotations")
    { sidebar_annots with
      priv := { priv with tree_view := gtk_tree_view_set_model priv.tree_view list, job := none },
      jobs := g_object_unref sidebar_annots.jobs job }
  | _ :: _ =>
    let tree_view := { priv.tree_view with selection_mode := GtkSelectionMode.SINGLE }
    let connect_changed := decide (priv.selection_changed_id = 0)
    let selection_changed_id :=
      if connect_changed = true then sidebar_annots.next_handler_id else priv.selection_changed_id
    let tree_view :=
      if connect_changed = true then
        { tree_view with changed_handlers := tree_view.changed_handlers + 1 }
      else tree_view
    let next_handler_id :=
      if connect_changed = true then sidebar_annots.next_handler_id + 1
      else sidebar_annots.next_handler_id
    let tree_view :=
      { tree_view with button_press_handlers := tree_view.button_press_handlers + 1 }
    let next_handler_id := next_handler_id + 1
    let st := grouping_pass sidebar_annots.gdkrgba_comparator_source annots
    let model := publish_groups st.map
    let tree_view := gtk_tree_view_set_model tree_view (GtkTreeModel.tree_store model)
    { sidebar_annots with
      priv :=
        { priv with
          tree_view := tree_view, selection_changed_id := selection_changed_id, job := none },
      gdkrgba_comparator_source := st.gdkrgba_comparator_source,
      jobs := g_object_unref sidebar_annots.jobs job,
      next_handler_id := next_handler_id }

/-- Modelled from the spec: the completion notification of the job object
`job` with result `annots`, as the scheduler (not among the sources) delivers
it: the handlers connected to `finished` run, then the scheduler releases its
reference. A job object that is no longer alive notifies nobody. -/
def ev_job_emit_finished (job : Nat) (annots : List EvMappingList) (sidebar_annots : Sidebar) :
    Sidebar :=
  match sidebar_annots.jobs.find? (fun o => decide (o.id = job)) with
  | none => sidebar_annots
  | some o =>
    let after :=
      if o.finished_handler = true then job_finished_callback job annots sidebar_annots
      else sidebar_annots
    { after with jobs := g_object_unref after.jobs job }

/-! ## Row activation -/

/-- The query `iter_has_mapping` on the row of an iterator. The second
argument is what the caller's variable `*mapping_out` holds before the call,
the second result what it holds after. -/
def iter_has_mapping (row : Row) (mapping_out : gpointer) : Bool × gpointer :=
  let mapping := row.annot_mapping
  (decide (mapping ≠ gpointer.NULL),
    if mapping ≠ gpointer.NULL then mapping else mapping_out)

def ev_sidebar_annotations_activate_result_at_iter (sidebar_annots : Sidebar) (row : Row) :
    Sidebar :=
  let r := iter_has_mapping row gpointer.NULL
  if r.1 = true then
    { sidebar_annots with
      emitted := sidebar_annots.emitted ++ [Effect.annot_activated r.2] }
  else sidebar_annots

/-- The handler of the signal `changed` of the selection. -/
def selection_changed_cb (sidebar_annots : Sidebar) : Sidebar :=
  let tree_view := sidebar_annots.priv.tree_view
  match tree_view.selected with
  | none => sidebar_annots
  | some path =>
    match gtk_tree_model_get_iter tree_view.model path with
    | none => sidebar_annots
    | some row => ev_sidebar_annotations_activate_result_at_iter sidebar_annots row

/-- Selection of a row by the program (`gtk_tree_selection_select_iter`): in
a mode that allows it, a row that is not yet selected becomes the selected
row and the signal `changed` runs every connected `selection_changed_cb`. -/
def gtk_tree_selection_select_iter (sidebar_annots : Sidebar) (path : List Nat) : Sidebar :=
  let tree_view := sidebar_annots.priv.tree_view
  if tree_view.selection_mode = GtkSelectionMode.NONE then sidebar_annots
  else if tree_view.selected = some path then sidebar_annots
  else
    let selected : Sidebar :=
      { sidebar_annots with
        priv := { sidebar_annots.priv with
                  tree_view := { tree_view with selected := some path } } }
    Nat.iterate selection_changed_cb tree_view.changed_handlers selected

def gtk_tree_selection_iter_is_selected (sidebar_annots : Sidebar) (path : List Nat) : Bool :=
  decide (sidebar_annots.priv.tree_view.selected = some path)

/-- A button press on the tree view: the pointer position, whether the press
asks for a context menu (`gdk_event_triggers_context_menu`), and the path
`gtk_tree_view_get_path_at_pos` finds at the position. -/
structure GdkEventButton where
  x : ℚ
  y : ℚ
  triggers_context_menu : Bool
  path : Option (List Nat)
deriving DecidableEq

/-- The read `annot_mapping->data` followed by the type check
`EV_IS_ANNOTATION`. The pointer is read as an `EvMapping`; when it points to
something else the read is outside the model (`none`). -/
def mapping_data_is_annot (annot_mapping : gpointer) : Option (Bool × EvAnnotation) :=
  match annot_mapping with
  | gpointer.to_mapping mapping => some (true, mapping.data)
  | _ => none

def ev_sidebar_annotations_popup_menu_show (sidebar_annots : Sidebar) (rect : GdkRectangle)
    (annot_mapping : gpointer) : Option (Bool × Sidebar) :=
  match mapping_data_is_annot annot_mapping with
  | none => none
  | some (false, _) => some (false, sidebar_annots)
  | some (true, annot) =>
    some (true,
      { sidebar_annots with
        priv := { sidebar_annots.priv with popup := true },
        emitted := sidebar_annots.emitted ++
          [Effect.handle_annot_popup annot, Effect.menu_popup_at_rect rect] })

/-- The handler of `button-press-event`. The first result is
`GDK_EVENT_STOP` (`true`) or `GDK_EVENT_PROPAGATE` (`false`). -/
def sidebar_tree_button_press_cb (event : GdkEventButton) (sidebar_annots : Sidebar) :
    Option (Bool × Sidebar) :=
  match event.path with
  | none => some (false, sidebar_annots)
  | some path =>
    match gtk_tree_model_get_iter sidebar_annots.priv.tree_view.model path with
    | none => none
    | some iter =>
      let r := iter_has_mapping iter gpointer.NULL
      if event.triggers_context_menu = true ∧ r.1 = true then
        let annot_mapping := r.2
        let sidebar_annots := ev_sidebar_annotations_activate_result_at_iter sidebar_annots iter
        match mapping_data_is_annot annot_mapping with
        | none => none
        | some (false, _) => some (false, sidebar_annots)
        | some (true, _) =>
          let sidebar_annots := gtk_tree_selection_select_iter sidebar_annots path
          let rect : GdkRectangle :=
            { x := double_to_int event.x, y := double_to_int event.y, width := 1, height := 1 }
          match ev_sidebar_annotations_popup_menu_show sidebar_annots rect annot_mapping with
          | none => none
          | some (_, sidebar_annots) => some (true, sidebar_annots)
      else
        let sidebar_annots :=
          if gtk_tree_selection_iter_is_selected sidebar_annots path = false then
            gtk_tree_selection_select_iter sidebar_annots path
          else ev_sidebar_annotations_activate_result_at_iter sidebar_annots iter
        some (false, sidebar_annots)

/-- Runs the first `n` connected copies of `sidebar_tree_button_press_cb` in
connection order; a handler that answers `GDK_EVENT_STOP` ends the emission.
The first result tells whether the event was stopped. -/
def run_button_press_handlers : Nat → GdkEventButton → Sidebar → Option (Bool × Sidebar)
  | 0, _, sidebar_annots => some (false, sidebar_annots)
  | n + 1, event, sidebar_annots =>
    match sidebar_tree_button_press_cb event sidebar_annots with
    | none => none
    | some (true, sidebar_annots) => some (true, sidebar_annots)
    | some (false, sidebar_annots) => run_button_press_handlers n event sidebar_annots

/-- The emission of `button-press-event` on the tree view: every connected
handler of the sidebar runs, and an event that none of them stopped reaches
the tree view, which selects the pressed row on a plain press. -/
def gtk_widget_button_press_event (event : GdkEventButton) (sidebar_annots : Sidebar) :
    Option Sidebar :=
  match run_button_press_handlers sidebar_annots.priv.tree_view.button_press_handlers event
      sidebar_annots with
  | none => none
  | some (true, sidebar_annots) => some sidebar_annots
  | some (false, sidebar_annots) =>
    match event.path with
    | none => some sidebar_annots
    | some path =>
      if event.triggers_context_menu = true then some sidebar_annots
      else some (gtk_tree_selection_select_iter sidebar_annots path)

/-! ## The load controller as a transition system -/

/-- The inbound events of the load controller: the four load triggers and the
completion notification of a job with its result. -/
inductive Event where
  | document_changed (document : Nat) (is_document_annotations : Bool)
  | annot_added
  | annot_changed
  | annot_removed
  | job_finished (job : Nat) (annots : List EvMappingList)
deriving DecidableEq

def step (sidebar_annots : Sidebar) : Event → Sidebar
  | Event.document_changed document is_document_annotations =>
    ev_sidebar_annotations_document_changed_cb document is_document_annotations sidebar_annots
  | Event.annot_added => ev_sidebar_annotations_annot_added sidebar_annots
  | Event.annot_changed => ev_sidebar_annotations_annot_changed sidebar_annots
  | Event.annot_removed => ev_sidebar_annotations_annot_removed sidebar_annots
  | Event.job_finished job annots => ev_job_emit_finished job annots sidebar_annots

/-- The state after a sequence of events, processed one after the other. -/
def run (sidebar_annots : Sidebar) (events : List Event) : Sidebar :=
  events.foldl step sidebar_annots

/-- The number of `annot-activated` emissions in a log. -/
def count_activated (emitted : List Effect) : Nat :=
  (emitted.filter (fun e => match e with
    | Effect.annot_activated _ => true
    | _ => false)).length

/-! ## Closed form of the grouping pass and sample inputs -/

/-- The member list of the group of colour `c` after the markup-capable
annotations `l` were processed. -/
def members_of (l : List EvAnnotation) (c : GdkRGBA) : _LinkedList EvAnnotation :=
  { size := (l.filter (fun a => decide (a.rgba = c))).length,
    nodes := l.filter (fun a => decide (a.rgba = c)) }

/-- The list `map` after the markup-capable annotations `l` were processed. -/
def map_of (l : List EvAnnotation) : _LinkedList _ColorAnnotations :=
  { size := (remove_repeats (l.map (fun a => a.rgba))).length,
    nodes := (remove_repeats (l.map (fun a => a.rgba))).map
      (fun c => { rgba := c, annotations := members_of l c }) }


def yellow : GdkRGBA :=
  { red := 1, green := 1, blue := 0, alpha := 1 }

def red : GdkRGBA :=
  { red := 1, green := 0, blue := 0, alpha := 1 }

def black : GdkRGBA :=
  { red := 0, green := 0, blue := 0, alpha := 0 }

def sample_area : EvRectangle :=
  { x1 := 0, y1 := 0, x2 := 1, y2 := 1 }

/-- A text annotation with label `Note`, a timestamp and no contents. -/
def sample_note (rgba : GdkRGBA) : EvAnnotation :=
  { type := EvAnnotationType.TEXT, is_markup := true, rgba := rgba, label := "Note",
    modified := some "2024-01-01", contents := none }

/-- A highlight with contents and no timestamp. -/
def sample_highlight (rgba : GdkRGBA) : EvAnnotation :=
  { type := EvAnnotationType.TEXT_MARKUP EvAnnotationTextMarkupType.HIGHLIGHT, is_markup := true,
    rgba := rgba, label := "Mark", modified := none, contents := some "see p. 3" }

/-- An annotation without the markup capability. -/
def sample_plain : EvAnnotation :=
  { type := EvAnnotationType.OTHER, is_markup := false, rgba := yellow, label := "",
    modified := none, contents := none }

def sample_page (page : Nat) (annots : List EvAnnotation) : EvMappingList :=
  { page := page, list := annots.map (fun annot => { area := sample_area, data := annot }) }

/-- Two yellow annotations and a red one on three pages, yellow first. -/
def sample_document : List EvMappingList :=
  [sample_page 0 [sample_note yellow], sample_page 1 [sample_plain, sample_highlight yellow],
   sample_page 2 [sample_note red]]

/-- The same annotations with the red one on the first page. -/
def sample_document_red_first : List EvMappingList :=
  [sample_page 0 [sample_note red], sample_page 1 [sample_note yellow],
   sample_page 2 [sample_plain, sample_highlight yellow]]

/-- The group row published for a colour: the swatch markup, no icon, no
back-reference, no tooltip. -/
def swatch_row (rgba : GdkRGBA) : Row :=
  { markup := some ("<span background=\"" ++ rgba_to_hex rgba ++
      "\" foreground=\"white\">*****</span>"),
    icon := none, annot_mapping := gpointer.NULL, tooltip := none }

/-- The group row of a colour group with one leaf per member. -/
def group_node (g : _ColorAnnotations) : TreeNode :=
  { row := swatch_row g.rgba, children := g.annotations.nodes.map leaf_row }

/-- The tree store that `job_finished_callback` publishes for a non-empty
list of page lists when the global holds `src` at the start. -/
def published_tree (src : GdkRGBA) (annots : List EvMappingList) : List TreeNode :=
  publish_groups (grouping_pass src annots).map

/-- The lowercase hexadecimal digit of a value below sixteen. -/
def hex_digit (d : Nat) : Char :=
  "0123456789abcdef".toList.getD d '0'

/-- The two-digit lowercase hexadecimal numeral of a value below 256. -/
def two_digit_hex (n : Nat) : String :=
  String.mk [hex_digit (n / 16), hex_digit (n % 16)]

/-- The model `job_finished_callback` publishes for an empty result. -/
def no_annotations_model : GtkTreeModel :=
  GtkTreeModel.list_store
    [{ markup := some "<span size=\"larger\" style=\"italic\">Document contains no annotations</span>",
       icon := none, annot_mapping := gpointer.NULL, tooltip := none }]

/-- A channel value of the normalized range. -/
def normalized (c : ℚ) : Prop :=
  0 ≤ c ∧ c ≤ 1

/-! ## Invariant of the load controller -/

/-- The reference count and handler connection a live job object has in a
state of the controller: the held job is referenced by the sidebar and by the
scheduler and has the completion handler connected; every other live job is
referenced by the scheduler alone and has no handler connected. -/
def job_consistent (w : Sidebar) (o : JobObject) : Prop :=
  if w.priv.job = some o.id then o.ref_count = 2 ∧ o.finished_handler = true
  else o.ref_count = 1 ∧ o.finished_handler = false

/-- The invariant of the reachable states: live job objects have distinct
identities below the allocation counter, each is in the condition
`job_consistent` describes, and the held job is alive. -/
structure controller_invariant (w : Sidebar) : Prop where
  nodup : (w.jobs.map (fun o => o.id)).Nodup
  fresh : ∀ o ∈ w.jobs, o.id < w.next_job
  consistent : ∀ o ∈ w.jobs, job_consistent w o
  held_alive : ∀ j, w.priv.job = some j → ∃ o ∈ w.jobs, o.id = j

/-- The model a completion with result `annots` publishes when the global
holds `src`. -/
def result_model (src : GdkRGBA) (annots : List EvMappingList) : GtkTreeModel :=
  match annots with
  | [] => no_annotations_model
  | _ :: _ => GtkTreeModel.tree_store (published_tree src annots)

/-! ## Sample interaction -/

/-- The state `w` with the row at `path` selected and `effects` sent out in
addition. -/
def with_selected_emitted (w : Sidebar) (path : List Nat) (effects : List Effect) : Sidebar :=
  { w with
    priv := { w.priv with tree_view := { w.priv.tree_view with selected := some path } },
    emitted := w.emitted ++ effects }

/-- A plain press (no context menu) at a position where the tree view finds
the row at `path`. -/
def plain_press (x y : ℚ) (path : List Nat) : GdkEventButton :=
  { x := x, y := y, triggers_context_menu := false, path := some path }

/-- The sidebar after one completed load of the sample document. -/
def after_one_load : Sidebar :=
  run ev_sidebar_annotations_init [Event.annot_added, Event.job_finished 0 sample_document]

/-- The sidebar after two completed loads of the sample document. -/
def after_two_loads : Sidebar :=
  run ev_sidebar_annotations_init
    [Event.annot_added, Event.job_finished 0 sample_document,
     Event.annot_added, Event.job_finished 1 sample_document]

/-! ## Vocabulary for rows, icons and load triggers -/

/-- The icon of a leaf as the specification words it: a function of the class
of the annotation and, for a text markup, of its markup type. -/
def icon_of_type : EvAnnotationType → Option String
  | EvAnnotationType.TEXT => some EV_STOCK_ANNOT_TEXT
  | EvAnnotationType.ATTACHMENT => some "mail-attachment-symbolic"
  | EvAnnotationType.TEXT_MARKUP EvAnnotationTextMarkupType.HIGHLIGHT =>
    some "format-justify-left-symbolic"
  | EvAnnotationType.TEXT_MARKUP EvAnnotationTextMarkupType.STRIKE_OUT =>
    some "format-text-strikethrough-symbolic"
  | EvAnnotationType.TEXT_MARKUP EvAnnotationTextMarkupType.UNDERLINE =>
    some "format-text-underline-symbolic"
  | EvAnnotationType.TEXT_MARKUP EvAnnotationTextMarkupType.SQUIGGLY =>
    some EV_STOCK_ANNOT_SQUIGGLY
  | EvAnnotationType.TEXT_MARKUP EvAnnotationTextMarkupType.UNKNOWN => none
  | EvAnnotationType.OTHER => none

/-- The model the tree view shows from `ev_sidebar_annotations_init` on. -/
def loading_model : GtkTreeModel :=
  GtkTreeModel.list_store
    [{ markup := some "<span size=\"larger\" style=\"italic\">Loading…</span>",
       icon := none, annot_mapping := gpointer.NULL, tooltip := none }]

/-- A press that asks for the context menu at a position where the tree view
finds the row at `path`. -/
def context_menu_press (x y : ℚ) (path : List Nat) : GdkEventButton :=
  { x := x, y := y, triggers_context_menu := true, path := some path }

/-- The inner `while` loop of the publication for one colour group, started
with the group row `iter` and `found` false: the group row with its leaves,
and the value of `found` after the loop. -/
def publish_leaves (iter : TreeNode) (annots : _ColorAnnotations) : TreeNode × Bool :=
  annots.annotations.nodes.foldl
    (fun (acc : TreeNode × Bool) annot =>
      ({ acc.1 with children := acc.1.children ++ [leaf_row annot] }, true))
    (iter, false)

/-- The events that trigger a load: every inbound event but the completion
notification of a job. -/
def is_load_trigger : Event → Bool
  | Event.job_finished _ _ => false
  | _ => true
/-! ## Lemmas on `remove_repeats` -/

section RemoveRepeats

variable {α : Type} [DecidableEq α]

theorem remove_repeats_nil : remove_repeats ([] : List α) = [] := by
  rw [remove_repeats]

theorem remove_repeats_cons (x : α) (xs : List α) :
    remove_repeats (x :: xs) = x :: remove_repeats (xs.filter (fun y => decide (y ≠ x))) := by
  rw [remove_repeats]

theorem remove_repeats_snoc_aux (n : Nat) :
    ∀ (l : List α), l.length = n → ∀ a : α,
      remove_repeats (l ++ [a]) = if a ∈ l then remove_repeats l else remove_repeats l ++ [a] := by
  induction n using Nat.strong_induction_on with
  | _ n ih =>
    intro l hl a
    cases l with
    | nil => simp [remove_repeats_cons, remove_repeats_nil]
    | cons x xs =>
      rw [List.cons_append, remove_repeats_cons, remove_repeats_cons, List.filter_append]
      by_cases hax : a = x
      · subst hax
        simp
      · have h1 : List.filter (fun y => decide (y ≠ x)) [a] = [a] := by simp [hax]
        have hlen : (List.filter (fun y => decide (y ≠ x)) xs).length < n := by
          rw [← hl, List.length_cons]
          exact Nat.lt_succ_of_le (List.length_filter_le _ _)
        rw [h1, ih _ hlen _ rfl a]
        by_cases hmem : a ∈ xs
        · have h2 : a ∈ List.filter (fun y => decide (y ≠ x)) xs := by
            simp [List.mem_filter, hmem, hax]
          simp [h2, hmem, hax]
        · have h2 : a ∉ List.filter (fun y => decide (y ≠ x)) xs := by
            simp [List.mem_filter, hmem]
          simp [h2, hmem, hax]

theorem remove_repeats_snoc (l : List α) (a : α) :
    remove_repeats (l ++ [a]) = if a ∈ l then remove_repeats l else remove_repeats l ++ [a] :=
  remove_repeats_snoc_aux l.length l rfl a

theorem mem_remove_repeats (l : List α) (c : α) : c ∈ remove_repeats l ↔ c ∈ l := by
  induction l using List.reverseRecOn with
  | nil => simp [remove_repeats_nil]
  | append_singleton l a ih =>
    rw [remove_repeats_snoc]
    by_cases h : a ∈ l
    · simp only [h, if_true, ih, List.mem_append, List.mem_singleton]
      constructor
      · intro hc; exact Or.inl hc
      · rintro (hc | hc)
        · exact hc
        · exact hc ▸ h
    · simp only [h, if_false, List.mem_append, ih]

theorem nodup_remove_repeats (l : List α) : (remove_repeats l).Nodup := by
  induction l using List.reverseRecOn with
  | nil => simp [remove_repeats_nil]
  | append_singleton l a ih =>
    rw [remove_repeats_snoc]
    by_cases h : a ∈ l
    · simpa [h] using ih
    · simp only [h, if_false]
      rw [List.nodup_append]
      refine ⟨ih, List.nodup_singleton a, ?_⟩
      intro x hx hxa
      rw [List.mem_singleton] at hxa
      subst hxa
      exact h ((mem_remove_repeats l x).1 hx)

end RemoveRepeats

/-! ## Lemmas on the grouping pass -/

theorem gdkrgba_comparator_eq_zero (c : GdkRGBA) (data : _ColorAnnotations) :
    gdkrgba_comparator c data = 0 ↔ c = data.rgba := by
  unfold gdkrgba_comparator
  constructor
  · intro h
    by_cases hc : c.red = data.rgba.red ∧ c.green = data.rgba.green ∧
        c.blue = data.rgba.blue ∧ c.alpha = data.rgba.alpha
    · obtain ⟨h1, h2, h3, h4⟩ := hc
      cases c
      cases hd : data.rgba
      simp_all
    · simp [hc] at h
  · intro h
    subst h
    simp

theorem find_from_not_mem (c : GdkRGBA) (g : GdkRGBA → _ColorAnnotations)
    (hg : ∀ k, (g k).rgba = k) (ks : List GdkRGBA) (hc : c ∉ ks) :
    linked_list_find_from (gdkrgba_comparator c) (ks.map g) = none := by
  induction ks with
  | nil => rfl
  | cons k ks ih =>
    have hk : ¬ gdkrgba_comparator c (g k) = 0 := by
      rw [gdkrgba_comparator_eq_zero, hg]
      intro h
      exact hc (h ▸ List.mem_cons_self _ _)
    simp only [List.map_cons, linked_list_find_from, hk, if_false]
    rw [ih (fun h => hc (List.mem_cons_of_mem _ h))]
    rfl

theorem find_from_mem (c : GdkRGBA) (g f : GdkRGBA → _ColorAnnotations)
    (u : _ColorAnnotations → _ColorAnnotations)
    (hg : ∀ k, (g k).rgba = k) (hfc : f c = u (g c)) (hf : ∀ k, k ≠ c → f k = g k)
    (ks : List GdkRGBA) (hnd : ks.Nodup) (hc : c ∈ ks) :
    ∃ p, linked_list_find_from (gdkrgba_comparator c) (ks.map g) = some p ∧
      node_data_update u (ks.map g) p = ks.map f := by
  induction ks with
  | nil => simp at hc
  | cons k ks ih =>
    rw [List.nodup_cons] at hnd
    by_cases hkc : k = c
    · subst hkc
      refine ⟨0, ?_, ?_⟩
      · have hk : gdkrgba_comparator k (g k) = 0 := by
          rw [gdkrgba_comparator_eq_zero, hg]
        simp only [List.map_cons, linked_list_find_from, hk, if_true]
      · simp only [List.map_cons, node_data_update, hfc]
        congr 1
        apply List.map_congr_left
        intro x hx
        symm
        apply hf
        intro hxk
        exact hnd.1 (hxk ▸ hx)
    · have hc2 : c ∈ ks := by
        rcases List.mem_cons.1 hc with h | h
        · exact absurd h.symm hkc
        · exact h
      obtain ⟨p, hp1, hp2⟩ := ih hnd.2 hc2
      refine ⟨p + 1, ?_, ?_⟩
      · have hk : ¬ gdkrgba_comparator c (g k) = 0 := by
          rw [gdkrgba_comparator_eq_zero, hg]
          exact fun h => hkc h.symm
        simp only [List.map_cons, linked_list_find_from, hk, if_false, hp1]
        rfl
      · simp only [List.map_cons, node_data_update, hp2, hf k hkc]

theorem group_mapping_not_markup (st : GroupingState) (mapping : EvMapping)
    (h : mapping.data.is_markup = false) : group_mapping st mapping = st := by
  simp [group_mapping, EV_IS_ANNOTATION_MARKUP, h]

theorem group_mapping_markup (src : GdkRGBA) (l : List EvAnnotation) (mapping : EvMapping)
    (h : mapping.data.is_markup = true) :
    group_mapping { gdkrgba_comparator_source := src, map := map_of l } mapping =
      { gdkrgba_comparator_source := mapping.data.rgba, map := map_of (l ++ [mapping.data]) } := by
  obtain ⟨area, a⟩ := mapping
  simp only at h
  by_cases hmem : a.rgba ∈ l.map (fun a => a.rgba)
  · have hmem2 : a.rgba ∈ remove_repeats (l.map (fun a => a.rgba)) :=
      (mem_remove_repeats _ _).2 hmem
    obtain ⟨p, hp1, hp2⟩ := find_from_mem a.rgba
      (fun c => { rgba := c, annotations := members_of l c })
      (fun c => { rgba := c, annotations := members_of (l ++ [a]) c })
      (fun c => { c with annotations := linked_list_append c.annotations a })
      (fun _ => rfl)
      (by simp [members_of, linked_list_append, List.filter_append])
      (by
        intro k hk
        have hk2 : ¬ a.rgba = k := fun h => hk h.symm
        simp [members_of, List.filter_append, hk2])
      _ (nodup_remove_repeats _) hmem2
    simp only [group_mapping, EV_IS_ANNOTATION_MARKUP, h, ev_annotation_get_rgba,
      linked_list_find, map_of, not_true_eq_false, if_false]
    rw [hp1]
    simp only [hp2, List.map_append, List.map_cons, List.map_nil, remove_repeats_snoc, hmem,
      if_true]
  · have hmem2 : a.rgba ∉ remove_repeats (l.map (fun a => a.rgba)) :=
      fun h => hmem ((mem_remove_repeats _ _).1 h)
    have hfind := find_from_not_mem a.rgba
      (fun c => { rgba := c, annotations := members_of l c }) (fun _ => rfl) _ hmem2
    simp only [group_mapping, EV_IS_ANNOTATION_MARKUP, h, ev_annotation_get_rgba,
      linked_list_find, map_of, not_true_eq_false, if_false]
    rw [hfind]
    simp only [List.map_append, List.map_cons, List.map_nil, remove_repeats_snoc, hmem,
      if_false, linked_list_append, color_annotations_new, linked_list_init,
      List.length_append, List.length_singleton, List.nil_append]
    congr 2
    have hnone : l.filter (fun b => decide (b.rgba = a.rgba)) = [] := by
      rw [List.filter_eq_nil_iff]
      intro b hb
      simp only [decide_eq_true_eq]
      intro hba
      exact hmem (List.mem_map.2 ⟨b, hb, hba⟩)
    have hrest : ∀ c ∈ remove_repeats (l.map (fun a => a.rgba)),
        members_of (l ++ [a]) c = members_of l c := by
      intro c hc
      have hne : ¬ a.rgba = c := fun h => hmem2 (h ▸ hc)
      simp [members_of, List.filter_append, hne]
    simp only [members_of, List.filter_append, hnone, List.nil_append, decide_True,
      List.filter_cons_of_pos, List.filter_nil, List.length_singleton]
    congr 1
    apply List.map_congr_left
    intro c hc
    have hne : ¬ a.rgba = c := fun h => hmem2 (h ▸ hc)
    simp [List.filter_append, hne]

theorem foldl_group_mapping (mappings : List EvMapping) :
    ∀ (src : GdkRGBA) (l : List EvAnnotation),
    ∃ src2, mappings.foldl group_mapping { gdkrgba_comparator_source := src, map := map_of l } =
      { gdkrgba_comparator_source := src2,
        map := map_of (l ++ (mappings.map (fun m => m.data)).filter (fun a => a.is_markup)) } := by
  induction mappings with
  | nil => intro src l; exact ⟨src, by simp⟩
  | cons m ms ih =>
    intro src l
    simp only [List.foldl_cons, List.map_cons]
    by_cases hm : m.data.is_markup = true
    · rw [group_mapping_markup src l m hm]
      obtain ⟨src2, h2⟩ := ih m.data.rgba (l ++ [m.data])
      refine ⟨src2, ?_⟩
      rw [h2, List.filter_cons_of_pos (by simpa using hm)]
      simp
    · have hm2 : m.data.is_markup = false := by simpa using hm
      rw [group_mapping_not_markup _ m hm2]
      obtain ⟨src2, h2⟩ := ih src l
      refine ⟨src2, ?_⟩
      rw [h2, List.filter_cons_of_neg (by simp [hm2])]

theorem foldl_pages (annots : List EvMappingList) :
    ∀ (src : GdkRGBA) (l : List EvAnnotation),
    ∃ src2, annots.foldl
        (fun st mapping_list => (ev_mapping_list_get_list mapping_list).foldl group_mapping st)
        { gdkrgba_comparator_source := src, map := map_of l } =
      { gdkrgba_comparator_source := src2, map := map_of (l ++ markup_annots annots) } := by
  induction annots with
  | nil => intro src l; exact ⟨src, by simp [markup_annots, flattened_annots]⟩
  | cons ml mls ih =>
    intro src l
    simp only [List.foldl_cons]
    obtain ⟨src1, h1⟩ := foldl_group_mapping ml.list src l
    have hget : ev_mapping_list_get_list ml = ml.list := rfl
    rw [hget, h1]
    obtain ⟨src2, h2⟩ := ih src1 _
    refine ⟨src2, ?_⟩
    rw [h2]
    simp [markup_annots, flattened_annots, List.filter_append]

/-- The groups built by the grouping pass: one group per colour of the
markup-capable annotations, in first-occurrence order, each holding the
markup-capable annotations of its colour in input order. -/
theorem color_groups_eq (src : GdkRGBA) (annots : List EvMappingList) :
    color_groups src annots = (map_of (markup_annots annots)).nodes := by
  obtain ⟨src2, h⟩ := foldl_pages annots src []
  have h0 : (linked_list_init : _LinkedList _ColorAnnotations) = map_of [] := by
    simp [map_of, linked_list_init, remove_repeats_nil]
  simp only [color_groups, grouping_pass, h0, h, List.nil_append]


theorem mem_color_groups (src : GdkRGBA) (annots : List EvMappingList) (g : _ColorAnnotations) :
    g ∈ color_groups src annots ↔
      g.rgba ∈ (markup_annots annots).map (fun a => a.rgba) ∧
        g.annotations = members_of (markup_annots annots) g.rgba := by
  rw [color_groups_eq]
  simp only [map_of, List.mem_map, mem_remove_repeats]
  constructor
  · rintro ⟨c, ⟨a, ha, hac⟩, rfl⟩
    exact ⟨⟨a, ha, hac⟩, rfl⟩
  · rintro ⟨⟨a, ha, hac⟩, hg⟩
    refine ⟨g.rgba, ⟨a, ha, hac⟩, ?_⟩
    cases g
    simp_all

theorem mem_members_of (l : List EvAnnotation) (c : GdkRGBA) (a : EvAnnotation) :
    a ∈ (members_of l c).nodes ↔ a ∈ l ∧ a.rgba = c := by
  simp [members_of, List.mem_filter]

theorem mem_markup_annots (annots : List EvMappingList) (a : EvAnnotation) :
    a ∈ markup_annots annots ↔ a ∈ flattened_annots annots ∧ a.is_markup = true := by
  simp [markup_annots, List.mem_filter]

theorem rgba_channels_eq (c d : GdkRGBA) :
    (c.red = d.red ∧ c.green = d.green ∧ c.blue = d.blue ∧ c.alpha = d.alpha) ↔ c = d := by
  constructor
  · rintro ⟨h1, h2, h3, h4⟩
    cases c
    cases d
    simp_all
  · rintro rfl
    exact ⟨rfl, rfl, rfl, rfl⟩

theorem same_group_iff (src : GdkRGBA) (annots : List EvMappingList) (a b : EvAnnotation)
    (ha : a ∈ markup_annots annots) (hb : b ∈ markup_annots annots) :
    (∃ g ∈ color_groups src annots, a ∈ g.annotations.nodes ∧ b ∈ g.annotations.nodes) ↔
      a.rgba = b.rgba := by
  constructor
  · rintro ⟨g, hg, hag, hbg⟩
    rw [mem_color_groups] at hg
    rw [hg.2, mem_members_of] at hag hbg
    rw [hag.2, hbg.2]
  · intro hab
    refine ⟨{ rgba := a.rgba, annotations := members_of (markup_annots annots) a.rgba }, ?_, ?_, ?_⟩
    · rw [mem_color_groups]
      exact ⟨List.mem_map.2 ⟨a, ha, rfl⟩, rfl⟩
    · rw [mem_members_of]
      exact ⟨ha, rfl⟩
    · rw [mem_members_of]
      exact ⟨hb, hab.symm⟩

/-! ## C1: grouping is partitioning by exact colour equality -/

/-- C1. For every input and every two markup-capable annotations `a` and `b`
of it, the grouping pass puts `a` and `b` into a common colour group if and
only if their red, green, blue and alpha channels are all equal; when they
differ in one channel, no group holds both. -/
theorem C1_same_group_iff_channels_equal (src : GdkRGBA) (annots : List EvMappingList)
    (a b : EvAnnotation) (ha : a ∈ markup_annots annots) (hb : b ∈ markup_annots annots) :
    ((∃ g ∈ color_groups src annots, a ∈ g.annotations.nodes ∧ b ∈ g.annotations.nodes) ↔
      (a.rgba.red = b.rgba.red ∧ a.rgba.green = b.rgba.green ∧
        a.rgba.blue = b.rgba.blue ∧ a.rgba.alpha = b.rgba.alpha)) ∧
    ((a.rgba.red ≠ b.rgba.red ∨ a.rgba.green ≠ b.rgba.green ∨
        a.rgba.blue ≠ b.rgba.blue ∨ a.rgba.alpha ≠ b.rgba.alpha) →
      ∀ g ∈ color_groups src annots, ¬ (a ∈ g.annotations.nodes ∧ b ∈ g.annotations.nodes)) := by
  have key := same_group_iff src annots a b ha hb
  refine ⟨?_, ?_⟩
  · rw [rgba_channels_eq]
    exact key
  · intro hne g hg hab
    have heq : a.rgba = b.rgba := key.1 ⟨g, hg, hab⟩
    rw [← rgba_channels_eq] at heq
    obtain ⟨h1, h2, h3, h4⟩ := heq
    rcases hne with h | h | h | h
    · exact h h1
    · exact h h2
    · exact h h3
    · exact h h4

theorem sample_note_mem (c : GdkRGBA) (hc : c = yellow ∨ c = red) :
    sample_note c ∈ markup_annots sample_document := by
  rcases hc with rfl | rfl <;>
    simp [markup_annots, flattened_annots, sample_document, sample_page, sample_note,
      sample_plain, sample_highlight]

/-- C1 at a concrete input: the yellow note and the red note of the sample
document differ in the green channel, and no group holds both. -/
theorem C1_witness :
    ((∃ g ∈ color_groups black sample_document,
        sample_note yellow ∈ g.annotations.nodes ∧ sample_note red ∈ g.annotations.nodes) ↔
      ((sample_note yellow).rgba.red = (sample_note red).rgba.red ∧
        (sample_note yellow).rgba.green = (sample_note red).rgba.green ∧
        (sample_note yellow).rgba.blue = (sample_note red).rgba.blue ∧
        (sample_note yellow).rgba.alpha = (sample_note red).rgba.alpha)) ∧
    (((sample_note yellow).rgba.red ≠ (sample_note red).rgba.red ∨
        (sample_note yellow).rgba.green ≠ (sample_note red).rgba.green ∨
        (sample_note yellow).rgba.blue ≠ (sample_note red).rgba.blue ∨
        (sample_note yellow).rgba.alpha ≠ (sample_note red).rgba.alpha) →
      ∀ g ∈ color_groups black sample_document,
        ¬ (sample_note yellow ∈ g.annotations.nodes ∧ sample_note red ∈ g.annotations.nodes)) :=
  C1_same_group_iff_channels_equal black sample_document (sample_note yellow) (sample_note red)
    (sample_note_mem yellow (Or.inl rfl)) (sample_note_mem red (Or.inr rfl))

/-! ## Lemmas on the publication loop -/

theorem publish_children_foldl (l : List EvAnnotation) (iter : TreeNode) (found : Bool) :
    l.foldl
      (fun (acc : TreeNode × Bool) annot =>
        ({ acc.1 with children := acc.1.children ++ [leaf_row annot] }, true))
      (iter, found) =
    ({ iter with children := iter.children ++ l.map leaf_row }, found || !l.isEmpty) := by
  induction l generalizing iter found with
  | nil => simp
  | cons a l ih => simp [ih]

theorem publish_group_eq (model : List TreeNode) (g : _ColorAnnotations) :
    publish_group model g =
      if g.annotations.nodes = [] then model else model ++ [group_node g] := by
  unfold publish_group
  simp only [publish_children_foldl]
  by_cases h : g.annotations.nodes = []
  · simp [h]
  · have h2 : g.annotations.nodes.isEmpty = false := by
      cases hn : g.annotations.nodes with
      | nil => exact absurd hn h
      | cons a l => rfl
    simp [h, h2, group_node, swatch_row]

theorem foldl_publish_group (gs : List _ColorAnnotations) (model : List TreeNode)
    (hne : ∀ g ∈ gs, g.annotations.nodes ≠ []) :
    gs.foldl publish_group model = model ++ gs.map group_node := by
  induction gs generalizing model with
  | nil => simp
  | cons g gs ih =>
    have hg : g.annotations.nodes ≠ [] := hne g (List.mem_cons_self _ _)
    rw [List.foldl_cons, publish_group_eq, if_neg hg,
      ih _ (fun g2 h2 => hne g2 (List.mem_cons_of_mem _ h2))]
    simp

theorem color_group_nonempty (src : GdkRGBA) (annots : List EvMappingList)
    (g : _ColorAnnotations) (hg : g ∈ color_groups src annots) : g.annotations.nodes ≠ [] := by
  rw [mem_color_groups] at hg
  obtain ⟨hkey, hmem⟩ := hg
  obtain ⟨a, ha, hac⟩ := List.mem_map.1 hkey
  have : a ∈ g.annotations.nodes := by
    rw [hmem, mem_members_of]
    exact ⟨ha, hac⟩
  exact List.ne_nil_of_mem this

theorem published_tree_eq (src : GdkRGBA) (annots : List EvMappingList) :
    published_tree src annots = (color_groups src annots).map group_node := by
  have h := foldl_publish_group (color_groups src annots) []
    (fun g hg => color_group_nonempty src annots g hg)
  simpa [published_tree, publish_groups, color_groups] using h

theorem job_finished_callback_model (job : Nat) (ml : EvMappingList) (mls : List EvMappingList)
    (w : Sidebar) :
    (job_finished_callback job (ml :: mls) w).priv.tree_view.model =
      GtkTreeModel.tree_store (published_tree w.gdkrgba_comparator_source (ml :: mls)) := by
  simp [job_finished_callback, gtk_tree_view_set_model, published_tree]

theorem leaf_row_annot_mapping (a : EvAnnotation) :
    (leaf_row a).annot_mapping = gpointer.to_annot a := rfl

theorem published_back_references (src : GdkRGBA) (annots : List EvMappingList) :
    (published_tree src annots).map
        (fun node => node.children.map (fun leaf => leaf.annot_mapping)) =
      (color_groups src annots).map (fun g => g.annotations.nodes.map gpointer.to_annot) := by
  rw [published_tree_eq]
  simp [group_node, leaf_row_annot_mapping, Function.comp_def]

/-! ## C2: one group per colour, in first-encounter order -/

theorem remove_repeats_index_order {α : Type} [DecidableEq α] (l : List α) :
    List.Pairwise (fun c d => List.indexOf c l < List.indexOf d l) (remove_repeats l) := by
  induction l using List.reverseRecOn with
  | nil => simp [remove_repeats_nil]
  | append_singleton l a ih =>
    rw [remove_repeats_snoc]
    have hmono : List.Pairwise
        (fun c d => List.indexOf c (l ++ [a]) < List.indexOf d (l ++ [a])) (remove_repeats l) := by
      refine List.Pairwise.imp_of_mem ?_ ih
      intro c d hc hd hcd
      rw [List.indexOf_append_of_mem ((mem_remove_repeats l c).1 hc),
        List.indexOf_append_of_mem ((mem_remove_repeats l d).1 hd)]
      exact hcd
    by_cases h : a ∈ l
    · simpa [h] using hmono
    · simp only [h, if_false]
      rw [List.pairwise_append]
      refine ⟨hmono, List.pairwise_singleton _ _, ?_⟩
      intro c hc d hd
      rw [List.mem_singleton] at hd
      subst hd
      have hcl : c ∈ l := (mem_remove_repeats l c).1 hc
      rw [List.indexOf_append_of_mem hcl, List.indexOf_append_of_not_mem h]
      have := List.indexOf_lt_length.2 hcl
      omega

theorem group_keys_eq (src : GdkRGBA) (annots : List EvMappingList) :
    (color_groups src annots).map (fun g => g.rgba) =
      remove_repeats ((markup_annots annots).map (fun a => a.rgba)) := by
  rw [color_groups_eq]
  simp only [map_of, List.map_map]
  exact List.map_id _

theorem sample_document_colors :
    (markup_annots sample_document).map (fun a => a.rgba) = [yellow, yellow, red] := by
  simp [markup_annots, flattened_annots, sample_document, sample_page, sample_note,
    sample_plain, sample_highlight]

theorem sample_document_red_first_colors :
    (markup_annots sample_document_red_first).map (fun a => a.rgba) = [red, yellow, yellow] := by
  simp [markup_annots, flattened_annots, sample_document_red_first, sample_page, sample_note,
    sample_plain, sample_highlight]

theorem yellow_ne_red : yellow ≠ red := by decide

/-- C2. The colour keys of the groups, in group order, are the colours of the
markup-capable annotations in input order with every repeated colour removed
after its first occurrence: the keys are pairwise distinct, every colour that
occurs is the key of exactly one group, and a key stands before another one
exactly as their first occurrences do in the input. For two annotations of
one colour (yellow, say) and one of another colour (red) on three pages, the
first colour first, the result is exactly two groups: the group of the first
colour with its two annotations in page order, then the group of the other
colour, whatever the colour values are. The sample document gives yellow,
then red; with the red annotation first it gives red, then yellow. -/
theorem C2_group_keys_first_encounter_order (src : GdkRGBA) (annots : List EvMappingList) :
    (color_groups src annots).map (fun g => g.rgba) =
        remove_repeats ((markup_annots annots).map (fun a => a.rgba)) ∧
    ((color_groups src annots).map (fun g => g.rgba)).Nodup ∧
    (∀ c ∈ (markup_annots annots).map (fun a => a.rgba),
      List.count c ((color_groups src annots).map (fun g => g.rgba)) = 1) ∧
    (∀ g ∈ color_groups src annots, g.rgba ∈ (markup_annots annots).map (fun a => a.rgba)) ∧
    List.Pairwise
      (fun c d =>
        List.indexOf c ((markup_annots annots).map (fun a => a.rgba)) <
          List.indexOf d ((markup_annots annots).map (fun a => a.rgba)))
      ((color_groups src annots).map (fun g => g.rgba)) ∧
    (∀ (c1 c2 : GdkRGBA) (a1 a2 a3 : EvAnnotation) (r1 r2 r3 : EvRectangle) (p1 p2 p3 : Nat),
      c1 ≠ c2 → a1.is_markup = true → a2.is_markup = true → a3.is_markup = true →
      a1.rgba = c1 → a2.rgba = c1 → a3.rgba = c2 →
      color_groups src
          [{ page := p1, list := [{ area := r1, data := a1 }] },
           { page := p2, list := [{ area := r2, data := a2 }] },
           { page := p3, list := [{ area := r3, data := a3 }] }] =
        [{ rgba := c1, annotations := { size := 2, nodes := [a1, a2] } },
         { rgba := c2, annotations := { size := 1, nodes := [a3] } }]) ∧
    (color_groups src sample_document).map (fun g => g.rgba) = [yellow, red] ∧
    (color_groups src sample_document_red_first).map (fun g => g.rgba) = [red, yellow] := by
  have hny : ¬ red = yellow := fun h => yellow_ne_red h.symm
  refine ⟨group_keys_eq src annots, ?_, ?_, ?_, ?_, ?_, ?_, ?_⟩
  · rw [group_keys_eq]
    exact nodup_remove_repeats _
  · intro c hc
    rw [group_keys_eq]
    exact List.count_eq_one_of_mem (nodup_remove_repeats _) ((mem_remove_repeats _ _).2 hc)
  · intro g hg
    exact ((mem_color_groups src annots g).1 hg).1
  · rw [group_keys_eq]
    exact remove_repeats_index_order _
  · intro c1 c2 a1 a2 a3 r1 r2 r3 p1 p2 p3 hne h1 h2 h3 e1 e2 e3
    have hne2 : ¬ c2 = c1 := fun h => hne h.symm
    have hl : markup_annots
        [{ page := p1, list := [{ area := r1, data := a1 }] },
         { page := p2, list := [{ area := r2, data := a2 }] },
         { page := p3, list := [{ area := r3, data := a3 }] }] = [a1, a2, a3] := by
      simp [markup_annots, flattened_annots, h1, h2, h3]
    rw [color_groups_eq, hl]
    simp [map_of, members_of, remove_repeats_cons, remove_repeats_nil, e1, e2, e3, hne, hne2]
  · rw [group_keys_eq, sample_document_colors]
    simp [remove_repeats_cons, remove_repeats_nil, yellow_ne_red, hny]
  · rw [group_keys_eq, sample_document_red_first_colors]
    simp [remove_repeats_cons, remove_repeats_nil, yellow_ne_red, hny]

/-! ## C3: members of a group in input order -/

/-- C3. The member sequence of every group is the subsequence of the
flattened input made of the markup-capable annotations of the colour of the
group, in input order, and the back-references of the leaves published under
the groups are these member sequences, group by group and in the same order. -/
theorem C3_group_members_in_input_order (src : GdkRGBA) (annots : List EvMappingList) :
    (∀ g ∈ color_groups src annots,
      g.annotations.nodes =
        (flattened_annots annots).filter
          (fun a => a.is_markup && decide (a.rgba = g.rgba))) ∧
    (published_tree src annots).map (fun node => node.children.map (fun leaf => leaf.annot_mapping)) =
      (color_groups src annots).map (fun g => g.annotations.nodes.map gpointer.to_annot) ∧
    (published_tree src annots).map (fun node => node.children) =
      (color_groups src annots).map (fun g => g.annotations.nodes.map leaf_row) ∧
    (∀ (job : Nat) (ml : EvMappingList) (mls : List EvMappingList) (w : Sidebar),
      (job_finished_callback job (ml :: mls) w).priv.tree_view.model =
        GtkTreeModel.tree_store (published_tree w.gdkrgba_comparator_source (ml :: mls))) := by
  refine ⟨?_, ?_, ?_, ?_⟩
  · intro g hg
    rw [mem_color_groups] at hg
    rw [hg.2]
    simp only [members_of, markup_annots, List.filter_filter]
    apply List.filter_congr
    intro a _
    exact Bool.and_comm _ _
  · exact published_back_references src annots
  · rw [published_tree_eq]
    simp [group_node]
  · intro job ml mls w
    exact job_finished_callback_model job ml mls w

/-! ## C4: the leaves are the markup-capable annotations -/

theorem sum_map_ite_nodup (ks : List GdkRGBA) (hnd : ks.Nodup) (k : GdkRGBA) (n : Nat) :
    (ks.map (fun c => if k = c then n else 0)).sum = if k ∈ ks then n else 0 := by
  induction ks with
  | nil => simp
  | cons c ks ih =>
    rw [List.nodup_cons] at hnd
    rw [List.map_cons, List.sum_cons, ih hnd.2]
    by_cases hkc : k = c
    · subst hkc
      simp [hnd.1]
    · have hmem : k ∈ c :: ks ↔ k ∈ ks := by
        simp [hkc]
      simp only [hkc, if_false, hmem, Nat.zero_add]

theorem count_members_of (l : List EvAnnotation) (c : GdkRGBA) (a : EvAnnotation) :
    (members_of l c).nodes.count a = if a.rgba = c then l.count a else 0 := by
  by_cases h : a.rgba = c
  · simp only [members_of, h, if_true]
    exact List.count_filter (by simpa using h)
  · simp only [h, if_false]
    apply List.count_eq_zero_of_not_mem
    rw [mem_members_of]
    exact fun hh => h hh.2

theorem sum_count_groups (src : GdkRGBA) (annots : List EvMappingList) (a : EvAnnotation) :
    ((color_groups src annots).map (fun g => g.annotations.nodes.count a)).sum =
      (markup_annots annots).count a := by
  rw [color_groups_eq]
  simp only [map_of, List.map_map, Function.comp_def, count_members_of]
  rw [sum_map_ite_nodup _ (nodup_remove_repeats _)]
  by_cases h : a ∈ markup_annots annots
  · have : a.rgba ∈ remove_repeats ((markup_annots annots).map (fun a => a.rgba)) :=
      (mem_remove_repeats _ _).2 (List.mem_map.2 ⟨a, h, rfl⟩)
    simp [this]
  · rw [List.count_eq_zero_of_not_mem h]
    simp

theorem members_flatten_perm (src : GdkRGBA) (annots : List EvMappingList) :
    List.Perm ((color_groups src annots).map (fun g => g.annotations.nodes)).flatten
      (markup_annots annots) := by
  rw [List.perm_iff_count]
  intro a
  rw [List.count_flatten, List.map_map]
  exact sum_count_groups src annots a

theorem groups_holding (src : GdkRGBA) (annots : List EvMappingList) (a : EvAnnotation)
    (ha : a ∈ markup_annots annots) :
    ((color_groups src annots).filter (fun g => decide (a ∈ g.annotations.nodes))).length = 1 := by
  have hfilter : (color_groups src annots).filter (fun g => decide (a ∈ g.annotations.nodes)) =
      (color_groups src annots).filter (fun g => decide (g.rgba = a.rgba)) := by
    apply List.filter_congr
    intro g hg
    rw [mem_color_groups] at hg
    rw [hg.2]
    simp only [mem_members_of, ha, true_and, decide_eq_decide]
    exact eq_comm
  rw [hfilter]
  have hcount := List.count_eq_one_of_mem
    (show ((color_groups src annots).map (fun g => g.rgba)).Nodup by
      rw [group_keys_eq]; exact nodup_remove_repeats _)
    (show a.rgba ∈ (color_groups src annots).map (fun g => g.rgba) by
      rw [group_keys_eq]
      exact (mem_remove_repeats _ _).2 (List.mem_map.2 ⟨a, ha, rfl⟩))
  rw [List.count, List.countP_map, List.countP_eq_length_filter] at hcount
  rw [← hcount]
  congr 1

/-- C4. An annotation that is not markup-capable is a member of no group and
the back-reference of no published leaf. Every markup-capable annotation of
the input is a member of exactly one group, and it occurs in the groups as
often as in the input. The number of leaves is the number of markup-capable
annotations, and the back-references of the leaves are, up to order, the
markup-capable annotations of the input. The tree in question is the one
`job_finished_callback` publishes for a non-empty list of page lists. -/
theorem C4_leaves_are_markup_annots (src : GdkRGBA) (annots : List EvMappingList) :
    (∀ a : EvAnnotation, a.is_markup = false →
      (∀ g ∈ color_groups src annots, a ∉ g.annotations.nodes) ∧
      (∀ node ∈ published_tree src annots, ∀ leaf ∈ node.children,
        leaf.annot_mapping ≠ gpointer.to_annot a)) ∧
    (∀ a ∈ markup_annots annots,
      ((color_groups src annots).filter
        (fun g => decide (a ∈ g.annotations.nodes))).length = 1) ∧
    (∀ a : EvAnnotation, a.is_markup = true →
      ((color_groups src annots).map (fun g => g.annotations.nodes.count a)).sum =
        (flattened_annots annots).count a) ∧
    ((published_tree src annots).map (fun node => node.children.length)).sum =
      (markup_annots annots).length ∧
    List.Perm
      ((published_tree src annots).map
        (fun node => node.children.map (fun leaf => leaf.annot_mapping))).flatten
      ((markup_annots annots).map gpointer.to_annot) ∧
    (∀ (job : Nat) (ml : EvMappingList) (mls : List EvMappingList) (w : Sidebar),
      (job_finished_callback job (ml :: mls) w).priv.tree_view.model =
        GtkTreeModel.tree_store (published_tree w.gdkrgba_comparator_source (ml :: mls))) := by
  have hmem : ∀ (a : EvAnnotation), a.is_markup = false →
      ∀ g ∈ color_groups src annots, a ∉ g.annotations.nodes := by
    intro a ha g hg hag
    rw [mem_color_groups] at hg
    rw [hg.2, mem_members_of, mem_markup_annots] at hag
    rw [hag.1.2] at ha
    exact Bool.noConfusion ha
  have hperm : List.Perm
      ((published_tree src annots).map
        (fun node => node.children.map (fun leaf => leaf.annot_mapping))).flatten
      ((markup_annots annots).map gpointer.to_annot) := by
    have hmap : (color_groups src annots).map
        (fun g => g.annotations.nodes.map gpointer.to_annot) =
        ((color_groups src annots).map (fun g => g.annotations.nodes)).map
          (List.map gpointer.to_annot) := by
      rw [List.map_map]
      rfl
    rw [published_back_references src annots, hmap, ← List.map_flatten]
    exact (members_flatten_perm src annots).map _
  refine ⟨?_, ?_, ?_, ?_, hperm, fun job ml mls w => job_finished_callback_model job ml mls w⟩
  · intro a ha
    refine ⟨hmem a ha, ?_⟩
    intro node hnode leaf hleaf hl
    rw [published_tree_eq] at hnode
    obtain ⟨g, hg, rfl⟩ := List.mem_map.1 hnode
    simp only [group_node, List.mem_map] at hleaf
    obtain ⟨b, hb, rfl⟩ := hleaf
    rw [leaf_row_annot_mapping] at hl
    have hba : b = a := by
      injection hl
    subst hba
    exact hmem b ha g hg hb
  · intro a ha
    exact groups_holding src annots a ha
  · intro a ha
    rw [sum_count_groups, markup_annots]
    exact List.count_filter (by simpa using ha)
  · have h1 := (members_flatten_perm src annots).length_eq
    rw [List.length_flatten, List.map_map] at h1
    rw [published_tree_eq, List.map_map, ← h1]
    congr 1
    apply List.map_congr_left
    intro g _
    simp [group_node]

/-! ## C5: the placeholder for an empty result -/

theorem published_tree_no_markup (src : GdkRGBA) (annots : List EvMappingList)
    (h : markup_annots annots = []) : published_tree src annots = [] := by
  rw [published_tree_eq, color_groups_eq, h]
  simp [map_of, remove_repeats_nil]

/-- C5, as stated, fails: a result that consists of one page list holding
only an annotation without the markup capability has no qualifying
annotation, and the callback publishes a tree store without rows, not the
placeholder. -/
theorem C5_counterexample :
    markup_annots [sample_page 0 [sample_plain]] = [] ∧
    (run ev_sidebar_annotations_init
        [Event.annot_added, Event.job_finished 0 [sample_page 0 [sample_plain]]]
      ).priv.tree_view.model = GtkTreeModel.tree_store [] ∧
    (run ev_sidebar_annotations_init
        [Event.annot_added, Event.job_finished 0 [sample_page 0 [sample_plain]]]
      ).priv.tree_view.model ≠ no_annotations_model := by
  have h0 : markup_annots [sample_page 0 [sample_plain]] = [] := by
    simp [markup_annots, flattened_annots, sample_page, sample_plain]
  have h1 : (run ev_sidebar_annotations_init
        [Event.annot_added, Event.job_finished 0 [sample_page 0 [sample_plain]]]
      ).priv.tree_view.model = GtkTreeModel.tree_store [] := by
    have hfind : (ev_sidebar_annotations_load ev_sidebar_annotations_init).jobs.find?
        (fun o => decide (o.id = 0)) =
        some { id := 0, ref_count := 2, finished_handler := true } := by
      decide
    simp only [run, List.foldl_cons, List.foldl_nil, step, ev_sidebar_annotations_annot_added,
      ev_job_emit_finished, hfind, if_true]
    rw [job_finished_callback_model, published_tree_no_markup _ _ h0]
  refine ⟨h0, h1, ?_⟩
  rw [h1]
  simp [no_annotations_model]

/-- C5, amended. The callback publishes the one-row placeholder model with
the message `Document contains no annotations` exactly when the result is the
empty sequence of page lists. For a non-empty sequence it publishes the tree
store of the colour groups, which has no row when no page list holds a
markup-capable annotation. -/
theorem C5_placeholder_iff_no_page_lists (job : Nat) (w : Sidebar) :
    (job_finished_callback job [] w).priv.tree_view.model = no_annotations_model ∧
    (∀ annots : List EvMappingList,
      (job_finished_callback job annots w).priv.tree_view.model = no_annotations_model ↔
        annots = []) ∧
    (∀ (ml : EvMappingList) (mls : List EvMappingList),
      (job_finished_callback job (ml :: mls) w).priv.tree_view.model =
        GtkTreeModel.tree_store (published_tree w.gdkrgba_comparator_source (ml :: mls))) ∧
    (∀ (ml : EvMappingList) (mls : List EvMappingList), markup_annots (ml :: mls) = [] →
      (job_finished_callback job (ml :: mls) w).priv.tree_view.model =
        GtkTreeModel.tree_store []) := by
  have hempty : (job_finished_callback job [] w).priv.tree_view.model = no_annotations_model := by
    simp [job_finished_callback, gtk_tree_view_set_model, no_annotations_model,
      ev_sidebar_annotations_create_simple_model, gettext]
  refine ⟨hempty, ?_, ?_, ?_⟩
  · intro annots
    cases annots with
    | nil => simp [hempty]
    | cons ml mls =>
      rw [job_finished_callback_model]
      simp [no_annotations_model]
  · intro ml mls
    exact job_finished_callback_model job ml mls w
  · intro ml mls h
    rw [job_finished_callback_model, published_tree_no_markup _ _ h]

/-! ## C8: the hexadecimal encoding of a colour -/

theorem round_half_even_le (x : ℚ) (N : ℤ) (h : x ≤ N) : round_half_even x ≤ N := by
  have hf : ⌊x⌋ ≤ N := by
    have := Int.floor_le x
    exact_mod_cast this.trans h
  unfold round_half_even
  simp only
  by_cases h1 : x - ⌊x⌋ < 1 / 2
  · simp only [h1, if_true]
    exact hf
  · have hlt : ⌊x⌋ < N := by
      rcases lt_or_eq_of_le hf with hlt | heq
      · exact hlt
      · exfalso
        apply h1
        have hx : x ≤ (⌊x⌋ : ℚ) := by rw [heq]; exact h
        linarith
    simp only [h1, if_false]
    split_ifs <;> omega

theorem le_round_half_even (x : ℚ) (N : ℤ) (h : (N : ℚ) ≤ x) : N ≤ round_half_even x := by
  have hf : N ≤ ⌊x⌋ := Int.le_floor.2 h
  unfold round_half_even
  simp only
  split_ifs <;> omega

theorem binary64_ulp_exponent_nonpos (x : ℚ) (h : |x| ≤ 255) : binary64_ulp_exponent x ≤ 0 := by
  unfold binary64_ulp_exponent
  have hlog : Int.log 2 |x| < 8 := by
    rcases eq_or_lt_of_le (abs_nonneg x) with h0 | hpos
    · rw [← h0, Int.log_zero_right]
      norm_num
    · rw [← Int.lt_zpow_iff_log_lt (by norm_num) hpos]
      have : ((2 : ℕ) : ℚ) ^ (8 : ℤ) = 256 := by norm_num
      rw [this]
      linarith
  omega

theorem binary64_round_le (x : ℚ) (N : ℤ) (he : binary64_ulp_exponent x ≤ 0) (h : x ≤ N) :
    binary64_round x ≤ N := by
  unfold binary64_round
  simp only
  obtain ⟨k, hk⟩ : ∃ k : ℕ, binary64_ulp_exponent x = -(k : ℤ) :=
    ⟨(-binary64_ulp_exponent x).toNat, by omega⟩
  rw [hk, zpow_neg, zpow_natCast]
  have hpos : (0 : ℚ) < 2 ^ k := by positivity
  have hx : x / (2 ^ k : ℚ)⁻¹ ≤ ((N * 2 ^ k : ℤ) : ℚ) := by
    rw [div_inv_eq_mul]
    push_cast
    exact mul_le_mul_of_nonneg_right h hpos.le
  have hr := round_half_even_le _ _ hx
  have hr2 : (round_half_even (x / (2 ^ k : ℚ)⁻¹) : ℚ) ≤ ((N * 2 ^ k : ℤ) : ℚ) := by
    exact_mod_cast hr
  calc (round_half_even (x / (2 ^ k : ℚ)⁻¹) : ℚ) * (2 ^ k : ℚ)⁻¹
      ≤ ((N * 2 ^ k : ℤ) : ℚ) * (2 ^ k : ℚ)⁻¹ :=
        mul_le_mul_of_nonneg_right hr2 (inv_nonneg.2 hpos.le)
    _ = N := by
        push_cast
        field_simp

theorem le_binary64_round (x : ℚ) (N : ℤ) (he : binary64_ulp_exponent x ≤ 0) (h : (N : ℚ) ≤ x) :
    (N : ℚ) ≤ binary64_round x := by
  unfold binary64_round
  simp only
  obtain ⟨k, hk⟩ : ∃ k : ℕ, binary64_ulp_exponent x = -(k : ℤ) :=
    ⟨(-binary64_ulp_exponent x).toNat, by omega⟩
  rw [hk, zpow_neg, zpow_natCast]
  have hpos : (0 : ℚ) < 2 ^ k := by positivity
  have hx : ((N * 2 ^ k : ℤ) : ℚ) ≤ x / (2 ^ k : ℚ)⁻¹ := by
    rw [div_inv_eq_mul]
    push_cast
    exact mul_le_mul_of_nonneg_right h hpos.le
  have hr := le_round_half_even _ _ hx
  have hr2 : ((N * 2 ^ k : ℤ) : ℚ) ≤ (round_half_even (x / (2 ^ k : ℚ)⁻¹) : ℚ) := by
    exact_mod_cast hr
  calc (N : ℚ) = ((N * 2 ^ k : ℤ) : ℚ) * (2 ^ k : ℚ)⁻¹ := by
        push_cast
        field_simp
    _ ≤ (round_half_even (x / (2 ^ k : ℚ)⁻¹) : ℚ) * (2 ^ k : ℚ)⁻¹ :=
        mul_le_mul_of_nonneg_right hr2 (inv_nonneg.2 hpos.le)

theorem double_mul_255_bounds (c : ℚ) (h : normalized c) :
    0 ≤ double_mul c 255 ∧ double_mul c 255 ≤ 255 := by
  obtain ⟨h0, h1⟩ := h
  have hx0 : (0 : ℚ) ≤ c * 255 := by linarith
  have hx1 : c * 255 ≤ 255 := by linarith
  have he : binary64_ulp_exponent (c * 255) ≤ 0 :=
    binary64_ulp_exponent_nonpos _ (by rw [abs_of_nonneg hx0]; exact hx1)
  constructor
  · have := le_binary64_round (c * 255) 0 he (by exact_mod_cast hx0)
    exact_mod_cast this
  · have := binary64_round_le (c * 255) 255 he (by exact_mod_cast hx1)
    exact_mod_cast this

theorem double_mul_one : double_mul 1 255 = 255 := by
  have he : binary64_ulp_exponent ((1 : ℚ) * 255) ≤ 0 :=
    binary64_ulp_exponent_nonpos _ (by norm_num)
  have h1 := le_binary64_round ((1 : ℚ) * 255) 255 he (by norm_num)
  have h2 := binary64_round_le ((1 : ℚ) * 255) 255 he (by norm_num)
  push_cast at h1 h2
  exact le_antisymm h2 h1

theorem double_mul_zero : double_mul 0 255 = 0 := by
  have he : binary64_ulp_exponent ((0 : ℚ) * 255) ≤ 0 :=
    binary64_ulp_exponent_nonpos _ (by norm_num)
  have h1 := le_binary64_round ((0 : ℚ) * 255) 0 he (by norm_num)
  have h2 := binary64_round_le ((0 : ℚ) * 255) 0 he (by norm_num)
  push_cast at h1 h2
  exact le_antisymm h2 h1

set_option maxRecDepth 100000 in
theorem format_digits (n : Nat) (h : n < 256) :
    String.mk (List.replicate (2 - (Nat.toDigits 16 n).length) '0' ++ Nat.toDigits 16 n) =
      two_digit_hex n := by
  revert n
  decide

theorem format_02x_byte (n : ℤ) (h0 : 0 ≤ n) (h1 : n ≤ 255) :
    format_02x n = two_digit_hex n.toNat := by
  unfold format_02x
  have hmod : (n % 2 ^ 32).toNat = n.toNat := by
    congr 1
    omega
  simp only [hmod]
  exact format_digits n.toNat (by omega)

theorem channel_to_hex (c : ℚ) (h : normalized c) :
    double_to_int (double_mul c 255) = truncate (double_mul c 255) ∧
    truncate (double_mul c 255) = ⌊double_mul c 255⌋ ∧
    0 ≤ truncate (double_mul c 255) ∧ truncate (double_mul c 255) ≤ 255 ∧
    format_02x (double_to_int (double_mul c 255)) =
      two_digit_hex (truncate (double_mul c 255)).toNat := by
  obtain ⟨hlo, hhi⟩ := double_mul_255_bounds c h
  have ht : truncate (double_mul c 255) = ⌊double_mul c 255⌋ := by
    simp [truncate, hlo]
  have h0 : 0 ≤ truncate (double_mul c 255) := by
    rw [ht]
    exact Int.floor_nonneg.2 hlo
  have h1 : truncate (double_mul c 255) ≤ 255 := by
    rw [ht]
    have := (Int.floor_le (double_mul c 255)).trans hhi
    exact_mod_cast this
  have hd : double_to_int (double_mul c 255) = truncate (double_mul c 255) := by
    simp only [double_to_int, Int.bmod]
    omega
  refine ⟨hd, ht, h0, h1, ?_⟩
  rw [hd]
  exact format_02x_byte _ h0 h1

theorem truncate_double_mul_near_exact (c : ℚ) (h : normalized c) :
    ⌊c * 255⌋ ≤ truncate (double_mul c 255) ∧ truncate (double_mul c 255) ≤ ⌊c * 255⌋ + 1 := by
  obtain ⟨_, ht, _, _, _⟩ := channel_to_hex c h
  obtain ⟨h0, h1⟩ := h
  have hx0 : (0 : ℚ) ≤ c * 255 := by linarith
  have hx1 : c * 255 ≤ 255 := by linarith
  have he : binary64_ulp_exponent (c * 255) ≤ 0 :=
    binary64_ulp_exponent_nonpos _ (by rw [abs_of_nonneg hx0]; exact hx1)
  rw [ht]
  constructor
  · have := le_binary64_round (c * 255) ⌊c * 255⌋ he (Int.floor_le _)
    exact Int.le_floor.2 this
  · have hlt : c * 255 ≤ ((⌊c * 255⌋ + 1 : ℤ) : ℚ) := by
      push_cast
      exact (Int.lt_floor_add_one _).le
    have := binary64_round_le (c * 255) (⌊c * 255⌋ + 1) he hlt
    have h2 := (Int.floor_le (double_mul c 255)).trans this
    exact_mod_cast h2

theorem two_digit_hex_length (n : Nat) : (two_digit_hex n).length = 2 := rfl

/-- C8. For a colour whose four channels lie in `[0, 1]`, `rgba_to_hex`
returns nine characters: `#`, then for red, green, blue and alpha the
two-digit lowercase hexadecimal numeral of the machine product of the channel
and 255, truncated toward zero, which lies between 0 and 255 and is the
truncation of the exact product or one more. A channel of 1 is written `ff`,
a channel of 0 is written `00`. The row of every published
group carries five asterisks in a span whose background is the encoding of
the group colour and whose foreground is `white`. -/
theorem C8_rgba_to_hex_normalized (rgba : GdkRGBA) (hr : normalized rgba.red)
    (hg : normalized rgba.green) (hb : normalized rgba.blue) (ha : normalized rgba.alpha) :
    rgba_to_hex rgba =
      "#" ++ two_digit_hex (truncate (double_mul rgba.red 255)).toNat ++
        two_digit_hex (truncate (double_mul rgba.green 255)).toNat ++
        two_digit_hex (truncate (double_mul rgba.blue 255)).toNat ++
        two_digit_hex (truncate (double_mul rgba.alpha 255)).toNat ∧
    (rgba_to_hex rgba).length = 9 ∧
    ((truncate (double_mul rgba.red 255)).toNat ≤ 255 ∧
      (truncate (double_mul rgba.green 255)).toNat ≤ 255 ∧
      (truncate (double_mul rgba.blue 255)).toNat ≤ 255 ∧
      (truncate (double_mul rgba.alpha 255)).toNat ≤ 255) ∧
    (∀ c : ℚ, normalized c →
      ⌊c * 255⌋ ≤ truncate (double_mul c 255) ∧ truncate (double_mul c 255) ≤ ⌊c * 255⌋ + 1) ∧
    format_02x (double_to_int (double_mul 1 255)) = "ff" ∧
    format_02x (double_to_int (double_mul 0 255)) = "00" ∧
    rgba_to_hex { red := 1, green := 0, blue := 0, alpha := 1 } = "#ff0000ff" ∧
    (∀ (src : GdkRGBA) (annots : List EvMappingList),
      (published_tree src annots).map (fun node => node.row.markup) =
        (color_groups src annots).map (fun g =>
          some ("<span background=\"" ++ rgba_to_hex g.rgba ++
            "\" foreground=\"white\">*****</span>"))) := by
  obtain ⟨_, _, r0, r1, hred⟩ := channel_to_hex rgba.red hr
  obtain ⟨_, _, g0, g1, hgreen⟩ := channel_to_hex rgba.green hg
  obtain ⟨_, _, b0, b1, hblue⟩ := channel_to_hex rgba.blue hb
  obtain ⟨_, _, a0, a1, halpha⟩ := channel_to_hex rgba.alpha ha
  have hone : format_02x (double_to_int (double_mul 1 255)) = "ff" := by
    have h := (channel_to_hex 1 ⟨by norm_num, le_refl _⟩).2.2.2.2
    rw [h, double_mul_one]
    have : truncate 255 = 255 := by
      simp [truncate]
    rw [this]
    decide
  have hzero : format_02x (double_to_int (double_mul 0 255)) = "00" := by
    have h := (channel_to_hex 0 ⟨le_refl _, by norm_num⟩).2.2.2.2
    rw [h, double_mul_zero]
    have : truncate 0 = 0 := by
      simp [truncate]
    rw [this]
    decide
  have heq : rgba_to_hex rgba =
      "#" ++ two_digit_hex (truncate (double_mul rgba.red 255)).toNat ++
        two_digit_hex (truncate (double_mul rgba.green 255)).toNat ++
        two_digit_hex (truncate (double_mul rgba.blue 255)).toNat ++
        two_digit_hex (truncate (double_mul rgba.alpha 255)).toNat := by
    simp only [rgba_to_hex, hred, hgreen, hblue, halpha]
  refine ⟨heq, ?_, ⟨by omega, by omega, by omega, by omega⟩,
    truncate_double_mul_near_exact, hone, hzero, ?_, ?_⟩
  · rw [heq]
    simp only [String.length_append, two_digit_hex_length]
    rfl
  · simp only [rgba_to_hex, hone, hzero]
    decide
  · intro src annots
    rw [published_tree_eq]
    simp [group_node, swatch_row]

theorem normalized_zero : normalized 0 := ⟨le_refl _, by norm_num⟩

theorem normalized_one : normalized 1 := ⟨by norm_num, le_refl _⟩

theorem normalized_half : normalized (1 / 2) := ⟨by norm_num, by norm_num⟩

/-- C8 at a concrete input: the colour with channels 1, 1/2, 0 and 1. -/
theorem C8_witness :
    rgba_to_hex { red := 1, green := 1 / 2, blue := 0, alpha := 1 } =
      "#" ++ two_digit_hex (truncate (double_mul 1 255)).toNat ++
        two_digit_hex (truncate (double_mul (1 / 2) 255)).toNat ++
        two_digit_hex (truncate (double_mul 0 255)).toNat ++
        two_digit_hex (truncate (double_mul 1 255)).toNat ∧
    (rgba_to_hex { red := 1, green := 1 / 2, blue := 0, alpha := 1 }).length = 9 :=
  ⟨(C8_rgba_to_hex_normalized { red := 1, green := 1 / 2, blue := 0, alpha := 1 }
      normalized_one normalized_half normalized_zero normalized_one).1,
    (C8_rgba_to_hex_normalized { red := 1, green := 1 / 2, blue := 0, alpha := 1 }
      normalized_one normalized_half normalized_zero normalized_one).2.1⟩

/-! ## C9 and C10: tooltip and body markup of a leaf -/

theorem published_leaf_is_leaf_row (src : GdkRGBA) (annots : List EvMappingList)
    (node : TreeNode) (hnode : node ∈ published_tree src annots) (leaf : Row)
    (hleaf : leaf ∈ node.children) : ∃ a ∈ markup_annots annots, leaf = leaf_row a := by
  rw [published_tree_eq] at hnode
  obtain ⟨g, hg, rfl⟩ := List.mem_map.1 hnode
  simp only [group_node, List.mem_map] at hleaf
  obtain ⟨a, ha, rfl⟩ := hleaf
  rw [mem_color_groups] at hg
  rw [hg.2, mem_members_of] at ha
  exact ⟨a, ha.1, rfl⟩

/-- C9. The tooltip of the leaf built for an annotation is the label in a
bold span, followed by a newline and the modification timestamp when the
annotation has one, and the bold span alone when it has none; every leaf of a
published tree is built this way from a markup-capable annotation of the
input. For label `Note` and timestamp `2024-01-01` the tooltip is the bold
span, a newline and the timestamp; without a timestamp it is the bold span. -/
theorem C9_leaf_tooltip (annot : EvAnnotation) :
    (∀ modified : String, annot.modified = some modified →
      (leaf_row annot).tooltip =
        some ("<span weight=\"bold\">" ++ annot.label ++ "</span>\n" ++ modified)) ∧
    (annot.modified = none →
      (leaf_row annot).tooltip = some ("<span weight=\"bold\">" ++ annot.label ++ "</span>")) ∧
    (annot.label = "Note" → annot.modified = some "2024-01-01" →
      (leaf_row annot).tooltip = some "<span weight=\"bold\">Note</span>\n2024-01-01") ∧
    (annot.label = "Note" → annot.modified = none →
      (leaf_row annot).tooltip = some "<span weight=\"bold\">Note</span>") ∧
    (∀ (src : GdkRGBA) (annots : List EvMappingList),
      ∀ node ∈ published_tree src annots, ∀ leaf ∈ node.children,
        ∃ a ∈ markup_annots annots, leaf = leaf_row a) := by
  refine ⟨?_, ?_, ?_, ?_, ?_⟩
  · intro modified h
    simp [leaf_row, ev_annotation_get_modified, ev_annotation_markup_get_label, h]
  · intro h
    simp [leaf_row, ev_annotation_get_modified, ev_annotation_markup_get_label, h]
  · intro hl hm
    simp only [leaf_row, ev_annotation_get_modified, ev_annotation_markup_get_label, hl, hm]
    decide
  · intro hl hm
    simp only [leaf_row, ev_annotation_get_modified, ev_annotation_markup_get_label, hl, hm]
    decide
  · intro src annots node hnode leaf hleaf
    exact published_leaf_is_leaf_row src annots node hnode leaf hleaf

/-- C10. The body markup of the leaf built for an annotation is the contents,
unchanged, when the annotation has contents (the empty string included), and
the tooltip string of the leaf when it has none; markup and tooltip coincide
only then or when the contents happen to be the tooltip text. The
construction is total: whatever optional field is absent, the leaf has a
markup and a tooltip. -/
theorem C10_leaf_markup (annot : EvAnnotation) :
    (∀ contents : String, annot.contents = some contents →
      (leaf_row annot).markup = some contents) ∧
    (annot.contents = some "" → (leaf_row annot).markup = some "") ∧
    (annot.contents = none → (leaf_row annot).markup = (leaf_row annot).tooltip) ∧
    ((leaf_row annot).markup = (leaf_row annot).tooltip ↔
      (annot.contents = none ∨ annot.contents = (leaf_row annot).tooltip)) ∧
    ((leaf_row annot).markup ≠ none ∧ (leaf_row annot).tooltip ≠ none) ∧
    (annot.label = "Note" → annot.modified = none → annot.contents = none →
      (leaf_row annot).markup = some "<span weight=\"bold\">Note</span>" ∧
      (leaf_row annot).tooltip = some "<span weight=\"bold\">Note</span>") := by
  refine ⟨?_, ?_, ?_, ?_, ?_, ?_⟩
  · intro contents h
    simp [leaf_row, ev_annotation_get_contents, h]
  · intro h
    simp [leaf_row, ev_annotation_get_contents, h]
  · intro h
    simp [leaf_row, ev_annotation_get_contents, h]
  · cases h : annot.contents with
    | none => simp [leaf_row, ev_annotation_get_contents, h]
    | some contents => simp [leaf_row, ev_annotation_get_contents, h]
  · simp [leaf_row]
  · intro hl hm hc
    simp only [leaf_row, ev_annotation_get_modified, ev_annotation_markup_get_label,
      ev_annotation_get_contents, hl, hm, hc]
    decide

/-! ## C6: a superseded job is inert -/

theorem g_object_unref_shared (jobs : List JobObject) (j : Nat)
    (h : ∀ o ∈ jobs, o.id = j → o.ref_count = 2) :
    g_object_unref jobs j =
      jobs.map (fun o => if o.id = j then { o with ref_count := 1 } else o) := by
  unfold g_object_unref
  rw [← List.filterMap_eq_map]
  apply List.filterMap_congr
  intro o ho
  by_cases hj : o.id = j
  · have := h o ho hj
    simp [hj, this]
  · simp [hj]

theorem g_object_unref_last (jobs : List JobObject) (j : Nat)
    (h : ∀ o ∈ jobs, o.id = j → o.ref_count = 1) :
    g_object_unref jobs j = jobs.filter (fun o => decide (o.id ≠ j)) := by
  unfold g_object_unref
  rw [← List.filterMap_eq_filter]
  apply List.filterMap_congr
  intro o ho
  by_cases hj : o.id = j
  · have := h o ho hj
    simp [hj, this, Option.guard]
  · simp [hj, Option.guard]

theorem map_other_id (jobs : List JobObject) (j : Nat) (f : JobObject → JobObject)
    (h : ∀ o ∈ jobs, o.id ≠ j) :
    jobs.map (fun o => if o.id = j then f o else o) = jobs := by
  conv_rhs => rw [← List.map_id jobs]
  apply List.map_congr_left
  intro o ho
  simp [h o ho]

theorem job_finished_callback_frame (job : Nat) (annots : List EvMappingList) (w : Sidebar) :
    (job_finished_callback job annots w).jobs = g_object_unref w.jobs job ∧
    (job_finished_callback job annots w).priv.job = none ∧
    (job_finished_callback job annots w).next_job = w.next_job ∧
    (job_finished_callback job annots w).priv.tree_view.model =
      result_model w.gdkrgba_comparator_source annots := by
  cases annots with
  | nil =>
    simp [job_finished_callback, result_model, gtk_tree_view_set_model, no_annotations_model,
      ev_sidebar_annotations_create_simple_model, gettext]
  | cons ml mls =>
    refine ⟨rfl, rfl, rfl, ?_⟩
    rw [job_finished_callback_model]
    rfl

/-- The job objects after a load: every job that was alive is referenced by
the scheduler alone and has no handler; the new job is held and connected. -/
theorem load_jobs (w : Sidebar) (hinv : controller_invariant w) :
    (ev_sidebar_annotations_load w).jobs =
      w.jobs.map (fun o => { id := o.id, ref_count := 1, finished_handler := false }) ++
        [{ id := w.next_job, ref_count := 2, finished_handler := true }] := by
  have hold : (match w.priv.job with
      | some job => g_object_unref (g_signal_handlers_disconnect_by_func w.jobs job) job
      | none => w.jobs) =
      w.jobs.map (fun o => { id := o.id, ref_count := 1, finished_handler := false }) := by
    cases hjob : w.priv.job with
    | none =>
      simp only
      conv_lhs => rw [← List.map_id w.jobs]
      apply List.map_congr_left
      intro o ho
      have hc := hinv.consistent o ho
      simp only [job_consistent, hjob] at hc
      cases o
      simp_all
    | some j =>
      simp only
      rw [g_object_unref_shared]
      · simp only [g_signal_handlers_disconnect_by_func, List.map_map]
        apply List.map_congr_left
        intro o ho
        have hc := hinv.consistent o ho
        simp only [job_consistent, hjob] at hc
        by_cases hoj : o.id = j
        · simp only [hoj, if_true] at hc
          simp [Function.comp_def, hoj]
        · have hne : ¬ some j = some o.id := by
            intro h
            exact hoj (Option.some.inj h).symm
          simp only [hne, if_false] at hc
          cases o
          simp_all [Function.comp_def]
      · intro o ho hoj
        simp only [g_signal_handlers_disconnect_by_func, List.mem_map] at ho
        obtain ⟨o2, ho2, rfl⟩ := ho
        have hc := hinv.consistent o2 ho2
        simp only [job_consistent, hjob] at hc
        by_cases h2 : o2.id = j
        · simp only [h2, if_true] at hc
          simp [h2, hc.1]
        · simp [h2] at hoj
  have hfresh : ∀ o ∈ w.jobs.map
      (fun o => ({ id := o.id, ref_count := 1, finished_handler := false } : JobObject)),
      o.id ≠ w.next_job := by
    intro o ho
    obtain ⟨o2, ho2, rfl⟩ := List.mem_map.1 ho
    exact Nat.ne_of_lt (hinv.fresh o2 ho2)
  simp only [ev_sidebar_annotations_load, hold, ev_job_scheduler_push_job, g_object_ref,
    g_signal_connect_finished, List.map_append, List.map_map]
  congr 1
  · have h1 := map_other_id _ w.next_job
      (fun o => { o with finished_handler := true }) hfresh
    have h2 := map_other_id _ w.next_job
      (fun o => { o with ref_count := o.ref_count + 1 }) hfresh
    rw [← List.map_map, ← List.map_map, h1, h2]
  · simp

theorem load_invariant (w : Sidebar) (hinv : controller_invariant w) :
    controller_invariant (ev_sidebar_annotations_load w) := by
  have hjobs := load_jobs w hinv
  have hjob : (ev_sidebar_annotations_load w).priv.job = some w.next_job := rfl
  have hnext : (ev_sidebar_annotations_load w).next_job = w.next_job + 1 := rfl
  refine ⟨?_, ?_, ?_, ?_⟩
  · rw [hjobs]
    simp only [List.map_append, List.map_map, Function.comp_def, List.map_cons, List.map_nil]
    rw [List.nodup_append]
    refine ⟨hinv.nodup, List.nodup_singleton _, ?_⟩
    intro x hx hx2
    rw [List.mem_singleton] at hx2
    obtain ⟨o, ho, rfl⟩ := List.mem_map.1 hx
    exact absurd hx2 (Nat.ne_of_lt (hinv.fresh o ho))
  · intro o ho
    rw [hjobs] at ho
    rw [hnext]
    rcases List.mem_append.1 ho with h | h
    · obtain ⟨o2, ho2, rfl⟩ := List.mem_map.1 h
      exact Nat.lt_succ_of_lt (hinv.fresh o2 ho2)
    · rw [List.mem_singleton] at h
      subst h
      exact Nat.lt_succ_self _
  · intro o ho
    rw [hjobs] at ho
    unfold job_consistent
    rw [hjob]
    rcases List.mem_append.1 ho with h | h
    · obtain ⟨o2, ho2, rfl⟩ := List.mem_map.1 h
      have hne : ¬ some w.next_job = some o2.id := by
        intro h
        exact Nat.ne_of_lt (hinv.fresh o2 ho2) (Option.some.inj h).symm
      simp [hne]
    · rw [List.mem_singleton] at h
      subst h
      simp
  · intro j hj
    rw [hjob] at hj
    rw [hjobs]
    refine ⟨{ id := w.next_job, ref_count := 2, finished_handler := true }, ?_, ?_⟩
    · simp
    · exact Option.some.inj hj

/-- The completion of a job that is not the held one: only the job object
goes away. -/
theorem emit_finished_not_held (j : Nat) (annots : List EvMappingList) (w : Sidebar)
    (hinv : controller_invariant w) (hj : w.priv.job ≠ some j) :
    ev_job_emit_finished j annots w =
      { w with jobs := w.jobs.filter (fun o => decide (o.id ≠ j)) } := by
  have hlast : ∀ o ∈ w.jobs, o.id = j → o.ref_count = 1 ∧ o.finished_handler = false := by
    intro o ho hoj
    have hc := hinv.consistent o ho
    unfold job_consistent at hc
    rw [hoj, if_neg hj] at hc
    exact hc
  unfold ev_job_emit_finished
  cases hfind : w.jobs.find? (fun o => decide (o.id = j)) with
  | none =>
    simp only
    have hall : ∀ o ∈ w.jobs, o.id ≠ j := by
      intro o ho
      have := List.find?_eq_none.1 hfind o ho
      simpa using this
    have hfilter : w.jobs.filter (fun o => decide (o.id ≠ j)) = w.jobs := by
      rw [List.filter_eq_self]
      intro o ho
      simpa using hall o ho
    rw [hfilter]
  | some o =>
    have ho : o ∈ w.jobs := List.mem_of_find?_eq_some hfind
    have hoj : o.id = j := by
      have := List.find?_some hfind
      simpa using this
    have hh := (hlast o ho hoj).2
    simp only [hh, Bool.false_eq_true, if_false]
    rw [g_object_unref_last _ _ (fun o2 ho2 h2 => (hlast o2 ho2 h2).1)]

/-- The completion of the held job: the callback runs and the job object goes
away. -/
theorem emit_finished_held (j : Nat) (annots : List EvMappingList) (w : Sidebar)
    (hinv : controller_invariant w) (hj : w.priv.job = some j) :
    ev_job_emit_finished j annots w =
      { job_finished_callback j annots w with
        jobs := w.jobs.filter (fun o => decide (o.id ≠ j)) } := by
  have hheld : ∀ o ∈ w.jobs, o.id = j → o.ref_count = 2 ∧ o.finished_handler = true := by
    intro o ho hoj
    have hc := hinv.consistent o ho
    unfold job_consistent at hc
    rw [hoj, if_pos hj] at hc
    exact hc
  obtain ⟨o, ho, hoj⟩ := hinv.held_alive j hj
  unfold ev_job_emit_finished
  cases hfind : w.jobs.find? (fun o => decide (o.id = j)) with
  | none =>
    exfalso
    have := List.find?_eq_none.1 hfind o ho
    simp [hoj] at this
  | some o2 =>
    have ho2 : o2 ∈ w.jobs := List.mem_of_find?_eq_some hfind
    have ho2j : o2.id = j := by
      have := List.find?_some hfind
      simpa using this
    have hh := (hheld o2 ho2 ho2j).2
    simp only [hh, if_true]
    congr 1
    rw [(job_finished_callback_frame j annots w).1,
      g_object_unref_shared _ _ (fun o3 ho3 h3 => (hheld o3 ho3 h3).1)]
    rw [g_object_unref_last]
    · rw [List.filter_map]
      have hf : List.filter
          ((fun o => decide (o.id ≠ j)) ∘ fun (o : JobObject) =>
            if o.id = j then { o with ref_count := 1 } else o) w.jobs =
          List.filter (fun o => decide (o.id ≠ j)) w.jobs := by
        apply List.filter_congr
        intro o3 _
        by_cases h3 : o3.id = j <;> simp [h3]
      rw [hf]
      apply map_other_id
      intro o3 ho3
      have := (List.mem_filter.1 ho3).2
      simpa using this
    · intro o3 ho3 h3
      obtain ⟨o4, _, rfl⟩ := List.mem_map.1 ho3
      by_cases h4 : o4.id = j
      · simp [h4]
      · simp [h4] at h3

theorem init_invariant : controller_invariant ev_sidebar_annotations_init := by
  refine ⟨?_, ?_, ?_, ?_⟩
  · simp [ev_sidebar_annotations_init]
  · intro o ho
    simp [ev_sidebar_annotations_init] at ho
  · intro o ho
    simp [ev_sidebar_annotations_init] at ho
  · intro j hj
    simp [ev_sidebar_annotations_init] at hj

theorem filter_ids_nodup (jobs : List JobObject) (p : JobObject → Bool)
    (h : (jobs.map (fun o => o.id)).Nodup) : ((jobs.filter p).map (fun o => o.id)).Nodup :=
  List.Nodup.sublist ((List.filter_sublist jobs).map _) h

theorem emit_finished_invariant (j : Nat) (annots : List EvMappingList) (w : Sidebar)
    (hinv : controller_invariant w) : controller_invariant (ev_job_emit_finished j annots w) := by
  by_cases hj : w.priv.job = some j
  · rw [emit_finished_held j annots w hinv hj]
    obtain ⟨_, hjob, hnext, _⟩ := job_finished_callback_frame j annots w
    refine ⟨filter_ids_nodup _ _ hinv.nodup, ?_, ?_, ?_⟩
    · intro o ho
      simp only at ho ⊢
      rw [hnext]
      exact hinv.fresh o (List.mem_filter.1 ho).1
    · intro o ho
      simp only at ho
      obtain ⟨ho1, ho2⟩ := List.mem_filter.1 ho
      have hne : o.id ≠ j := by simpa using ho2
      have hc := hinv.consistent o ho1
      unfold job_consistent at hc ⊢
      have h1 : ¬ w.priv.job = some o.id := by
        rw [hj]
        intro h
        exact hne (Option.some.inj h).symm
      rw [if_neg h1] at hc
      simp only [hjob]
      simpa using hc
    · intro j2 hj2
      simp only [hjob] at hj2
      exact Option.noConfusion hj2
  · rw [emit_finished_not_held j annots w hinv hj]
    refine ⟨filter_ids_nodup _ _ hinv.nodup, ?_, ?_, ?_⟩
    · intro o ho
      exact hinv.fresh o (List.mem_filter.1 ho).1
    · intro o ho
      exact hinv.consistent o (List.mem_filter.1 ho).1
    · intro j2 hj2
      obtain ⟨o, ho, hoj⟩ := hinv.held_alive j2 hj2
      refine ⟨o, List.mem_filter.2 ⟨ho, ?_⟩, hoj⟩
      have : o.id ≠ j := by
        rw [hoj]
        intro h
        exact hj (h ▸ hj2)
      simpa using this

theorem document_invariant (w : Sidebar) (document : Option Nat)
    (hinv : controller_invariant w) :
    controller_invariant { w with priv := { w.priv with document := document } } :=
  ⟨hinv.nodup, hinv.fresh, hinv.consistent, hinv.held_alive⟩

theorem step_invariant (w : Sidebar) (e : Event) (hinv : controller_invariant w) :
    controller_invariant (step w e) := by
  cases e with
  | document_changed document is_document_annotations =>
    simp only [step, ev_sidebar_annotations_document_changed_cb]
    by_cases h : is_document_annotations = false
    · simp only [h, if_true]
      exact hinv
    · simp only [h, if_false]
      exact load_invariant _ (document_invariant w (some document) hinv)
  | annot_added => exact load_invariant w hinv
  | annot_changed => exact load_invariant w hinv
  | annot_removed => exact load_invariant w hinv
  | job_finished job annots => exact emit_finished_invariant job annots w hinv

theorem run_invariant (events : List Event) (w : Sidebar) (hinv : controller_invariant w) :
    controller_invariant (run w events) := by
  induction events generalizing w with
  | nil => exact hinv
  | cons e es ih => exact ih (step w e) (step_invariant w e hinv)

/-- A job that is below the allocation counter and not held is never held
again. -/
theorem step_stale (w : Sidebar) (e : Event) (hinv : controller_invariant w) (j : Nat)
    (hlt : j < w.next_job) (hj : w.priv.job ≠ some j) :
    j < (step w e).next_job ∧ (step w e).priv.job ≠ some j := by
  have hload : ∀ w2 : Sidebar, j < w2.next_job →
      j < (ev_sidebar_annotations_load w2).next_job ∧
        (ev_sidebar_annotations_load w2).priv.job ≠ some j := by
    intro w2 h2
    refine ⟨Nat.lt_succ_of_lt h2, ?_⟩
    show some w2.next_job ≠ some j
    intro h
    exact Nat.ne_of_lt h2 (Option.some.inj h).symm
  cases e with
  | document_changed document is_document_annotations =>
    simp only [step, ev_sidebar_annotations_document_changed_cb]
    by_cases h : is_document_annotations = false
    · simp only [h, if_true]
      exact ⟨hlt, hj⟩
    · simp only [h, if_false]
      exact hload _ hlt
  | annot_added => exact hload w hlt
  | annot_changed => exact hload w hlt
  | annot_removed => exact hload w hlt
  | job_finished job annots =>
    simp only [step]
    by_cases hheld : w.priv.job = some job
    · rw [emit_finished_held job annots w hinv hheld]
      obtain ⟨_, hjob, hnext, _⟩ := job_finished_callback_frame job annots w
      simp only [hjob, hnext]
      exact ⟨hlt, fun h => Option.noConfusion h⟩
    · rw [emit_finished_not_held job annots w hinv hheld]
      exact ⟨hlt, hj⟩

theorem run_stale (events : List Event) (w : Sidebar) (hinv : controller_invariant w) (j : Nat)
    (hlt : j < w.next_job) (hj : w.priv.job ≠ some j) :
    (run w events).priv.job ≠ some j := by
  induction events generalizing w with
  | nil => exact hj
  | cons e es ih =>
    obtain ⟨h1, h2⟩ := step_stale w e hinv j hlt hj
    exact ih (step w e) (step_invariant w e hinv) h1 h2

theorem connected_length_le_one (w : Sidebar) (hinv : controller_invariant w) :
    (w.jobs.filter (fun o => o.finished_handler)).length ≤ 1 := by
  cases hjob : w.priv.job with
  | none =>
    have : w.jobs.filter (fun o => o.finished_handler) = [] := by
      rw [List.filter_eq_nil_iff]
      intro o ho
      have hc := hinv.consistent o ho
      simp only [job_consistent, hjob] at hc
      simp [hc.2]
    simp [this]
  | some j =>
    have hsub : w.jobs.filter (fun o => o.finished_handler) =
        w.jobs.filter (fun o => decide (o.id = j)) := by
      apply List.filter_congr
      intro o ho
      have hc := hinv.consistent o ho
      simp only [job_consistent, hjob] at hc
      by_cases hoj : o.id = j
      · simp only [hoj, if_true] at hc
        simp [hoj, hc.2]
      · have hne : ¬ some j = some o.id := fun h => hoj (Option.some.inj h).symm
        simp only [hne, if_false] at hc
        simp [hoj, hc.2]
    rw [hsub]
    have hcount := List.nodup_iff_count_le_one.1 hinv.nodup j
    rw [List.count, List.countP_map, List.countP_eq_length_filter] at hcount
    calc (w.jobs.filter (fun o => decide (o.id = j))).length
        = (w.jobs.filter ((fun x => x == j) ∘ fun o => o.id)).length := by
          congr 1
      _ ≤ 1 := hcount

/-- C6. In every state the controller reaches by load triggers and job
completions, in any order: a live job with the completion handler connected
is the held job, so at most one job is connected; the job held before a load
is disconnected by it; the completion of a job other than the held one leaves
the private data of the sidebar (the published model and the job field
included), the global and the log unchanged. After two loads in a row the
first job is never held again and its completion stays without effect
whatever happens later, while the completion of the second job, arriving
next, publishes the result of the second job. -/
theorem C6_superseded_job_is_inert (events : List Event) :
    (∀ o ∈ (run ev_sidebar_annotations_init events).jobs, o.finished_handler = true →
      (run ev_sidebar_annotations_init events).priv.job = some o.id) ∧
    ((run ev_sidebar_annotations_init events).jobs.filter
      (fun o => o.finished_handler)).length ≤ 1 ∧
    (∀ j, (run ev_sidebar_annotations_init events).priv.job = some j →
      ∀ o ∈ (ev_sidebar_annotations_load (run ev_sidebar_annotations_init events)).jobs,
        o.id = j → o.finished_handler = false) ∧
    (∀ (j : Nat) (annots : List EvMappingList),
      (run ev_sidebar_annotations_init events).priv.job ≠ some j →
      (ev_job_emit_finished j annots (run ev_sidebar_annotations_init events)).priv =
          (run ev_sidebar_annotations_init events).priv ∧
        (ev_job_emit_finished j annots
            (run ev_sidebar_annotations_init events)).gdkrgba_comparator_source =
          (run ev_sidebar_annotations_init events).gdkrgba_comparator_source ∧
        (ev_job_emit_finished j annots (run ev_sidebar_annotations_init events)).emitted =
          (run ev_sidebar_annotations_init events).emitted) ∧
    (∀ (later : List Event) (annots : List EvMappingList),
      (ev_sidebar_annotations_load (run ev_sidebar_annotations_init events)).priv.job =
          some (run ev_sidebar_annotations_init events).next_job ∧
        (ev_sidebar_annotations_load
            (ev_sidebar_annotations_load (run ev_sidebar_annotations_init events))).priv.job =
          some ((run ev_sidebar_annotations_init events).next_job + 1) ∧
        (run (ev_sidebar_annotations_load
            (ev_sidebar_annotations_load (run ev_sidebar_annotations_init events)))
          later).priv.job ≠ some (run ev_sidebar_annotations_init events).next_job ∧
        (ev_job_emit_finished (run ev_sidebar_annotations_init events).next_job annots
            (run (ev_sidebar_annotations_load
              (ev_sidebar_annotations_load (run ev_sidebar_annotations_init events)))
              later)).priv =
          (run (ev_sidebar_annotations_load
              (ev_sidebar_annotations_load (run ev_sidebar_annotations_init events)))
            later).priv ∧
        (ev_job_emit_finished ((run ev_sidebar_annotations_init events).next_job + 1) annots
            (ev_sidebar_annotations_load
              (ev_sidebar_annotations_load (run ev_sidebar_annotations_init events)))
          ).priv.tree_view.model =
          result_model (run ev_sidebar_annotations_init events).gdkrgba_comparator_source
            annots) := by
  have hinv := run_invariant events _ init_invariant
  have hinv1 := load_invariant _ hinv
  have hinv2 := load_invariant _ hinv1
  have inert : ∀ (w : Sidebar), controller_invariant w → ∀ (j : Nat)
      (annots : List EvMappingList), w.priv.job ≠ some j →
      (ev_job_emit_finished j annots w).priv = w.priv ∧
        (ev_job_emit_finished j annots w).gdkrgba_comparator_source =
          w.gdkrgba_comparator_source ∧
        (ev_job_emit_finished j annots w).emitted = w.emitted := by
    intro w hw j annots hj
    rw [emit_finished_not_held j annots w hw hj]
    exact ⟨rfl, rfl, rfl⟩
  refine ⟨?_, connected_length_le_one _ hinv, ?_, ?_, ?_⟩
  · intro o ho hh
    have hc := hinv.consistent o ho
    unfold job_consistent at hc
    by_cases hheld : (run ev_sidebar_annotations_init events).priv.job = some o.id
    · exact hheld
    · rw [if_neg hheld] at hc
      rw [hc.2] at hh
      exact Bool.noConfusion hh
  · intro j hj o ho hoj
    rw [load_jobs _ hinv] at ho
    rcases List.mem_append.1 ho with h | h
    · obtain ⟨o2, _, rfl⟩ := List.mem_map.1 h
      rfl
    · rw [List.mem_singleton] at h
      subst h
      obtain ⟨o2, ho2, ho2j⟩ := hinv.held_alive j hj
      have := hinv.fresh o2 ho2
      simp only at hoj
      omega
  · intro j annots hj
    exact inert _ hinv j annots hj
  · intro later annots
    have hfirst : (run ev_sidebar_annotations_init events).next_job <
        (ev_sidebar_annotations_load
          (ev_sidebar_annotations_load (run ev_sidebar_annotations_init events))).next_job := by
      show _ < _ + 1 + 1
      omega
    have hnot : (ev_sidebar_annotations_load
          (ev_sidebar_annotations_load (run ev_sidebar_annotations_init events))).priv.job ≠
        some (run ev_sidebar_annotations_init events).next_job := by
      show some (_ + 1) ≠ some _
      intro h
      have := Option.some.inj h
      omega
    have hstale := run_stale later _ hinv2 _ hfirst hnot
    refine ⟨rfl, rfl, hstale, (inert _ (run_invariant later _ hinv2) _ annots hstale).1, ?_⟩
    have hheld := emit_finished_held
      ((run ev_sidebar_annotations_init events).next_job + 1) annots _ hinv2 rfl
    rw [hheld]
    exact (job_finished_callback_frame _ annots _).2.2.2

/-! ## C7: activations per button press -/

theorem activate_leaf (w : Sidebar) (row : Row) (h : row.annot_mapping ≠ gpointer.NULL) :
    ev_sidebar_annotations_activate_result_at_iter w row =
      { w with emitted := w.emitted ++ [Effect.annot_activated row.annot_mapping] } := by
  simp [ev_sidebar_annotations_activate_result_at_iter, iter_has_mapping, h]

theorem with_selected_emitted_nil (w : Sidebar) (path : List Nat)
    (h : w.priv.tree_view.selected = some path) : with_selected_emitted w path [] = w := by
  obtain ⟨⟨document, ⟨model, mode, selected, ch, bp⟩, popup, job, sid⟩, src, jobs, nj, nh, em⟩ := w
  simp only at h
  simp [with_selected_emitted, h]

theorem with_selected_emitted_twice (w : Sidebar) (path : List Nat) (e1 e2 : List Effect) :
    with_selected_emitted (with_selected_emitted w path e1) path e2 =
      with_selected_emitted w path (e1 ++ e2) := by
  simp [with_selected_emitted, List.append_assoc]

/-- One run of the handler for a plain press on a leaf row: the row ends up
selected and one `annot-activated` is sent, whether the row was selected
before or not. -/
theorem plain_press_handler (w : Sidebar) (x y : ℚ) (path : List Nat) (row : Row)
    (hrow : gtk_tree_model_get_iter w.priv.tree_view.model path = some row)
    (hleaf : row.annot_mapping ≠ gpointer.NULL)
    (hmode : w.priv.tree_view.selection_mode = GtkSelectionMode.SINGLE)
    (hch : w.priv.tree_view.changed_handlers = 1) :
    sidebar_tree_button_press_cb (plain_press x y path) w =
      some (false, with_selected_emitted w path [Effect.annot_activated row.annot_mapping]) := by
  by_cases hsel : w.priv.tree_view.selected = some path
  · have hw : with_selected_emitted w path [Effect.annot_activated row.annot_mapping] =
        { w with emitted := w.emitted ++ [Effect.annot_activated row.annot_mapping] } := by
      conv_rhs => rw [← with_selected_emitted_nil w path hsel]
      simp [with_selected_emitted]
    rw [hw]
    simp [sidebar_tree_button_press_cb, plain_press, hrow, gtk_tree_selection_iter_is_selected,
      hsel, activate_leaf w row hleaf]
  · simp [sidebar_tree_button_press_cb, plain_press, hrow, gtk_tree_selection_iter_is_selected,
      hsel, gtk_tree_selection_select_iter, hmode, hch, selection_changed_cb,
      ev_sidebar_annotations_activate_result_at_iter, iter_has_mapping, hleaf,
      with_selected_emitted]

theorem plain_press_handlers (n : Nat) (w : Sidebar) (x y : ℚ) (path : List Nat) (row : Row)
    (hrow : gtk_tree_model_get_iter w.priv.tree_view.model path = some row)
    (hleaf : row.annot_mapping ≠ gpointer.NULL)
    (hmode : w.priv.tree_view.selection_mode = GtkSelectionMode.SINGLE)
    (hch : w.priv.tree_view.changed_handlers = 1) (effects : List Effect) :
    run_button_press_handlers n (plain_press x y path) (with_selected_emitted w path effects) =
      some (false, with_selected_emitted w path
        (effects ++ List.replicate n (Effect.annot_activated row.annot_mapping))) := by
  induction n generalizing effects with
  | zero => simp [run_button_press_handlers]
  | succ n ih =>
    have h1 := plain_press_handler (with_selected_emitted w path effects) x y path row hrow hleaf
      hmode hch
    rw [run_button_press_handlers, h1]
    simp only
    rw [with_selected_emitted_twice, ih, List.append_assoc]
    rfl

/-- A plain press on a leaf row sends one `annot-activated` per connected
copy of `sidebar_tree_button_press_cb`, and leaves the row selected. -/
theorem plain_press_emits_per_handler (w : Sidebar) (x y : ℚ) (path : List Nat) (row : Row)
    (n : Nat)
    (hrow : gtk_tree_model_get_iter w.priv.tree_view.model path = some row)
    (hleaf : row.annot_mapping ≠ gpointer.NULL)
    (hmode : w.priv.tree_view.selection_mode = GtkSelectionMode.SINGLE)
    (hch : w.priv.tree_view.changed_handlers = 1)
    (hn : w.priv.tree_view.button_press_handlers = n + 1) :
    gtk_widget_button_press_event (plain_press x y path) w =
      some (with_selected_emitted w path
        (List.replicate (n + 1) (Effect.annot_activated row.annot_mapping))) := by
  have h1 := plain_press_handler w x y path row hrow hleaf hmode hch
  have h2 := plain_press_handlers n w x y path row hrow hleaf hmode hch
    [Effect.annot_activated row.annot_mapping]
  have h3 : run_button_press_handlers (n + 1) (plain_press x y path) w =
      some (false, with_selected_emitted w path
        (List.replicate (n + 1) (Effect.annot_activated row.annot_mapping))) := by
    rw [run_button_press_handlers, h1]
    simp only
    rw [h2]
    rfl
  unfold gtk_widget_button_press_event
  rw [hn, h3]
  simp [plain_press, gtk_tree_selection_select_iter, with_selected_emitted]

theorem job_finished_callback_tree_view (job : Nat) (ml : EvMappingList)
    (mls : List EvMappingList) (w : Sidebar) :
    (job_finished_callback job (ml :: mls) w).priv.tree_view =
      { model := GtkTreeModel.tree_store (published_tree w.gdkrgba_comparator_source (ml :: mls)),
        selection_mode := GtkSelectionMode.SINGLE,
        selected := none,
        changed_handlers :=
          if w.priv.selection_changed_id = 0 then w.priv.tree_view.changed_handlers + 1
          else w.priv.tree_view.changed_handlers,
        button_press_handlers := w.priv.tree_view.button_press_handlers + 1 } ∧
    (job_finished_callback job (ml :: mls) w).priv.selection_changed_id =
      (if w.priv.selection_changed_id = 0 then w.next_handler_id
        else w.priv.selection_changed_id) ∧
    (job_finished_callback job (ml :: mls) w).emitted = w.emitted ∧
    (job_finished_callback job (ml :: mls) w).next_handler_id =
      (if w.priv.selection_changed_id = 0 then w.next_handler_id + 1
        else w.next_handler_id) + 1 := by
  by_cases h : w.priv.selection_changed_id = 0 <;>
    simp [job_finished_callback, gtk_tree_view_set_model, published_tree, h]

theorem sample_document_tree (src : GdkRGBA) :
    published_tree src sample_document =
      [group_node { rgba := yellow,
                    annotations := { size := 2,
                                     nodes := [sample_note yellow, sample_highlight yellow] } },
       group_node { rgba := red,
                    annotations := { size := 1, nodes := [sample_note red] } }] := by
  have hny : ¬ red = yellow := fun h => yellow_ne_red h.symm
  have hl : markup_annots sample_document =
      [sample_note yellow, sample_highlight yellow, sample_note red] := by
    simp [markup_annots, flattened_annots, sample_document, sample_page, sample_note,
      sample_plain, sample_highlight]
  rw [published_tree_eq, color_groups_eq, hl]
  simp [map_of, members_of, remove_repeats_cons, remove_repeats_nil, sample_note,
    sample_highlight, yellow_ne_red, hny]

theorem after_one_load_view :
    after_one_load.priv.tree_view =
      { model := GtkTreeModel.tree_store (published_tree black sample_document),
        selection_mode := GtkSelectionMode.SINGLE,
        selected := none,
        changed_handlers := 1,
        button_press_handlers := 1 } ∧
    after_one_load.priv.selection_changed_id = 2 ∧
    after_one_load.priv.job = none ∧
    after_one_load.next_job = 1 ∧
    after_one_load.emitted = [] := by
  have hinv1 := load_invariant _ init_invariant
  have h1 : after_one_load =
      ev_job_emit_finished 0 sample_document
        (ev_sidebar_annotations_load ev_sidebar_annotations_init) := rfl
  rw [h1, emit_finished_held 0 sample_document _ hinv1 rfl]
  obtain ⟨hv, hid, hem, _⟩ := job_finished_callback_tree_view 0 (sample_page 0 [sample_note yellow])
    [sample_page 1 [sample_plain, sample_highlight yellow], sample_page 2 [sample_note red]]
    (ev_sidebar_annotations_load ev_sidebar_annotations_init)
  refine ⟨?_, ?_, ?_, ?_, ?_⟩
  · exact hv
  · exact hid
  · exact (job_finished_callback_frame 0 sample_document _).2.1
  · exact (job_finished_callback_frame 0 sample_document _).2.2.1
  · exact hem

theorem after_two_loads_view :
    ∃ src, after_two_loads.priv.tree_view =
      { model := GtkTreeModel.tree_store (published_tree src sample_document),
        selection_mode := GtkSelectionMode.SINGLE,
        selected := none,
        changed_handlers := 1,
        button_press_handlers := 2 } ∧
    after_two_loads.emitted = [] := by
  have hinv : controller_invariant after_one_load := run_invariant _ _ init_invariant
  have hinv3 := load_invariant _ hinv
  obtain ⟨hv1, hid1, hjob1, hnext1, hem1⟩ := after_one_load_view
  have h1 : after_two_loads =
      ev_job_emit_finished 1 sample_document (ev_sidebar_annotations_load after_one_load) := rfl
  have hheld : (ev_sidebar_annotations_load after_one_load).priv.job = some 1 := by
    show some after_one_load.next_job = some 1
    rw [hnext1]
  rw [h1, emit_finished_held 1 sample_document _ hinv3 hheld]
  obtain ⟨hv, _, hem, _⟩ := job_finished_callback_tree_view 1 (sample_page 0 [sample_note yellow])
    [sample_page 1 [sample_plain, sample_highlight yellow], sample_page 2 [sample_note red]]
    (ev_sidebar_annotations_load after_one_load)
  have hid3 : (ev_sidebar_annotations_load after_one_load).priv.selection_changed_id = 2 := hid1
  have hv3 : (ev_sidebar_annotations_load after_one_load).priv.tree_view =
      after_one_load.priv.tree_view := rfl
  have hem3 : (ev_sidebar_annotations_load after_one_load).emitted = after_one_load.emitted := rfl
  refine ⟨(ev_sidebar_annotations_load after_one_load).gdkrgba_comparator_source, ?_, ?_⟩
  · have hv' : (job_finished_callback 1 sample_document
        (ev_sidebar_annotations_load after_one_load)).priv.tree_view = _ := hv
    refine hv'.trans ?_
    rw [hid3, hv3, hv1]
    simp
    rfl
  · have hem' : (job_finished_callback 1 sample_document
        (ev_sidebar_annotations_load after_one_load)).emitted = _ := hem
    exact hem'.trans (hem3.trans hem1)

theorem sample_leaf_row (src : GdkRGBA) :
    gtk_tree_model_get_iter (GtkTreeModel.tree_store (published_tree src sample_document)) [0, 0] =
      some (leaf_row (sample_note yellow)) := by
  rw [sample_document_tree]
  rfl

/-- C7 fails on the code: after two completed non-empty loads the handler
`sidebar_tree_button_press_cb` is connected twice, and one plain button press
on a leaf row sends `annot-activated` twice, both when the press moves the
selection to the row and when the row is already selected. After one
completed load the same presses send it once. -/
theorem C7_two_loads_two_activations :
    (∃ s3 s4 : Sidebar,
      after_two_loads.priv.tree_view.button_press_handlers = 2 ∧
      after_two_loads.priv.tree_view.selected = none ∧
      gtk_widget_button_press_event (plain_press 0 0 [0, 0]) after_two_loads = some s3 ∧
      s3.priv.tree_view.selected = some [0, 0] ∧
      s3.emitted =
        [Effect.annot_activated (gpointer.to_annot (sample_note yellow)),
         Effect.annot_activated (gpointer.to_annot (sample_note yellow))] ∧
      gtk_widget_button_press_event (plain_press 0 0 [0, 0]) s3 = some s4 ∧
      s4.priv.tree_view.selected = some [0, 0] ∧
      s4.emitted = s3.emitted ++
        [Effect.annot_activated (gpointer.to_annot (sample_note yellow)),
         Effect.annot_activated (gpointer.to_annot (sample_note yellow))] ∧
      count_activated s4.emitted = count_activated s3.emitted + 2) ∧
    (∃ s3 s4 : Sidebar,
      after_one_load.priv.tree_view.button_press_handlers = 1 ∧
      gtk_widget_button_press_event (plain_press 0 0 [0, 0]) after_one_load = some s3 ∧
      s3.emitted = [Effect.annot_activated (gpointer.to_annot (sample_note yellow))] ∧
      gtk_widget_button_press_event (plain_press 0 0 [0, 0]) s3 = some s4 ∧
      s4.emitted = s3.emitted ++
        [Effect.annot_activated (gpointer.to_annot (sample_note yellow))]) := by
  have hleaf : (leaf_row (sample_note yellow)).annot_mapping ≠ gpointer.NULL := by
    rw [leaf_row_annot_mapping]
    exact fun h => gpointer.noConfusion h
  constructor
  · obtain ⟨src, hv, hem⟩ := after_two_loads_view
    have hrow : gtk_tree_model_get_iter after_two_loads.priv.tree_view.model [0, 0] =
        some (leaf_row (sample_note yellow)) := by
      rw [hv]
      exact sample_leaf_row src
    have hp1 := plain_press_emits_per_handler after_two_loads 0 0 [0, 0] _ 1 hrow hleaf
      (by rw [hv]) (by rw [hv]) (by rw [hv])
    have hp2 := plain_press_emits_per_handler
      (with_selected_emitted after_two_loads [0, 0]
        (List.replicate 2 (Effect.annot_activated (leaf_row (sample_note yellow)).annot_mapping)))
      0 0 [0, 0] _ 1 hrow hleaf
      (by show after_two_loads.priv.tree_view.selection_mode = _; rw [hv])
      (by show after_two_loads.priv.tree_view.changed_handlers = _; rw [hv])
      (by show after_two_loads.priv.tree_view.button_press_handlers = _; rw [hv])
    refine ⟨_, _, by rw [hv], by rw [hv], hp1, rfl, ?_, hp2, rfl, ?_, ?_⟩
    · simp [with_selected_emitted, hem, leaf_row_annot_mapping]
    · simp [with_selected_emitted, hem, leaf_row_annot_mapping]
    · simp [with_selected_emitted, hem, leaf_row_annot_mapping, count_activated]
  · obtain ⟨hv, _, _, _, hem⟩ := after_one_load_view
    have hrow : gtk_tree_model_get_iter after_one_load.priv.tree_view.model [0, 0] =
        some (leaf_row (sample_note yellow)) := by
      rw [hv]
      exact sample_leaf_row black
    have hp1 := plain_press_emits_per_handler after_one_load 0 0 [0, 0] _ 0 hrow hleaf
      (by rw [hv]) (by rw [hv]) (by rw [hv])
    have hp2 := plain_press_emits_per_handler
      (with_selected_emitted after_one_load [0, 0]
        (List.replicate 1 (Effect.annot_activated (leaf_row (sample_note yellow)).annot_mapping)))
      0 0 [0, 0] _ 0 hrow hleaf
      (by show after_one_load.priv.tree_view.selection_mode = _; rw [hv])
      (by show after_one_load.priv.tree_view.changed_handlers = _; rw [hv])
      (by show after_one_load.priv.tree_view.button_press_handlers = _; rw [hv])
    refine ⟨_, _, by rw [hv], hp1, ?_, hp2, ?_⟩
    · simp [with_selected_emitted, hem, leaf_row_annot_mapping]
    · simp [with_selected_emitted, hem, leaf_row_annot_mapping]

/-! ## C11: the icon of a leaf -/

/-- C11. The icon of the leaf built for an annotation is a function of the
class of the annotation and, for a text markup, of its markup type: a text
annotation gets the stock text-annotation icon, an attachment
`mail-attachment-symbolic`, a highlight `format-justify-left-symbolic`, a
strike-out `format-text-strikethrough-symbolic`, an underline
`format-text-underline-symbolic`, a squiggly the stock squiggly icon; a text
markup of any other markup type and an annotation of any other class get no
icon. Two annotations of the same class and markup type get the same icon,
whatever their other fields. -/
theorem C11_leaf_icon (annot : EvAnnotation) :
    (leaf_row annot).icon = icon_of_type annot.type ∧
    (annot.type = EvAnnotationType.TEXT →
      (leaf_row annot).icon = some EV_STOCK_ANNOT_TEXT) ∧
    (annot.type = EvAnnotationType.ATTACHMENT →
      (leaf_row annot).icon = some "mail-attachment-symbolic") ∧
    (annot.type = EvAnnotationType.TEXT_MARKUP EvAnnotationTextMarkupType.HIGHLIGHT →
      (leaf_row annot).icon = some "format-justify-left-symbolic") ∧
    (annot.type = EvAnnotationType.TEXT_MARKUP EvAnnotationTextMarkupType.STRIKE_OUT →
      (leaf_row annot).icon = some "format-text-strikethrough-symbolic") ∧
    (annot.type = EvAnnotationType.TEXT_MARKUP EvAnnotationTextMarkupType.UNDERLINE →
      (leaf_row annot).icon = some "format-text-underline-symbolic") ∧
    (annot.type = EvAnnotationType.TEXT_MARKUP EvAnnotationTextMarkupType.SQUIGGLY →
      (leaf_row annot).icon = some EV_STOCK_ANNOT_SQUIGGLY) ∧
    (annot.type = EvAnnotationType.TEXT_MARKUP EvAnnotationTextMarkupType.UNKNOWN →
      (leaf_row annot).icon = none) ∧
    (annot.type = EvAnnotationType.OTHER → (leaf_row annot).icon = none) ∧
    (∀ other : EvAnnotation, other.type = annot.type →
      (leaf_row other).icon = (leaf_row annot).icon) ∧
    (∀ (src : GdkRGBA) (annots : List EvMappingList),
      ∀ node ∈ published_tree src annots, ∀ leaf ∈ node.children,
        ∃ a ∈ markup_annots annots, leaf = leaf_row a ∧ leaf.icon = icon_of_type a.type) := by
  have key : ∀ a : EvAnnotation, (leaf_row a).icon = icon_of_type a.type := by
    intro a
    cases ht : a.type with
    | TEXT =>
      simp [leaf_row, EV_IS_ANNOTATION_TEXT, ht, icon_of_type]
    | ATTACHMENT =>
      simp [leaf_row, EV_IS_ANNOTATION_TEXT, EV_IS_ANNOTATION_ATTACHMENT, ht, icon_of_type]
    | TEXT_MARKUP t =>
      cases t <;>
        simp [leaf_row, EV_IS_ANNOTATION_TEXT, EV_IS_ANNOTATION_ATTACHMENT,
          EV_IS_ANNOTATION_TEXT_MARKUP, ev_annotation_text_markup_get_markup_type, ht,
          icon_of_type]
    | OTHER =>
      simp [leaf_row, EV_IS_ANNOTATION_TEXT, EV_IS_ANNOTATION_ATTACHMENT,
        EV_IS_ANNOTATION_TEXT_MARKUP, ht, icon_of_type]
  refine ⟨key annot, ?_, ?_, ?_, ?_, ?_, ?_, ?_, ?_, ?_, ?_⟩
  · intro h
    rw [key, h]
    rfl
  · intro h
    rw [key, h]
    rfl
  · intro h
    rw [key, h]
    rfl
  · intro h
    rw [key, h]
    rfl
  · intro h
    rw [key, h]
    rfl
  · intro h
    rw [key, h]
    rfl
  · intro h
    rw [key, h]
    rfl
  · intro h
    rw [key, h]
    rfl
  · intro other h
    rw [key, key, h]
  · intro src annots node hnode leaf hleaf
    obtain ⟨a, ha, rfl⟩ := published_leaf_is_leaf_row src annots node hnode leaf hleaf
    exact ⟨a, ha, rfl, key a⟩

/-! ## C12: which rows carry a back-reference -/

theorem published_tree_getElem (src : GdkRGBA) (annots : List EvMappingList) (i : Nat) :
    (published_tree src annots)[i]? = ((color_groups src annots)[i]?).map group_node := by
  rw [published_tree_eq, List.getElem?_map]

theorem iter_has_mapping_null (row : Row) (h : row.annot_mapping = gpointer.NULL)
    (mapping_out : gpointer) : iter_has_mapping row mapping_out = (false, mapping_out) := by
  simp [iter_has_mapping, h]

theorem activate_null (w : Sidebar) (row : Row) (h : row.annot_mapping = gpointer.NULL) :
    ev_sidebar_annotations_activate_result_at_iter w row = w := by
  simp [ev_sidebar_annotations_activate_result_at_iter, iter_has_mapping, h]

/-- The row at every path of depth one of a published model has no
back-reference. -/
theorem header_row_null (src : GdkRGBA) (annots : List EvMappingList) (i : Nat) (row : Row)
    (h : gtk_tree_model_get_iter (result_model src annots) [i] = some row) :
    row.annot_mapping = gpointer.NULL := by
  cases annots with
  | nil =>
    simp only [result_model, no_annotations_model, gtk_tree_model_get_iter] at h
    cases i with
    | zero =>
      simp at h
      rw [← h]
    | succ n => simp at h
  | cons ml mls =>
    simp only [result_model, gtk_tree_model_get_iter, published_tree_getElem] at h
    cases hg : (color_groups src (ml :: mls))[i]? with
    | none => simp [hg] at h
    | some g =>
      simp [hg, group_node, swatch_row] at h
      rw [← h]

/-- The row at a path of depth two of a published model is the leaf of the
member at that position of the group at that position. -/
theorem leaf_row_at (src : GdkRGBA) (annots : List EvMappingList) (i j : Nat) (row : Row)
    (h : gtk_tree_model_get_iter (result_model src annots) [i, j] = some row) :
    ∃ g a, (color_groups src annots)[i]? = some g ∧ g.annotations.nodes[j]? = some a ∧
      a ∈ markup_annots annots ∧ row = leaf_row a := by
  cases annots with
  | nil => simp [result_model, no_annotations_model, gtk_tree_model_get_iter] at h
  | cons ml mls =>
    simp only [result_model, gtk_tree_model_get_iter, published_tree_getElem] at h
    cases hg : (color_groups src (ml :: mls))[i]? with
    | none => simp [hg] at h
    | some g =>
      simp only [hg, Option.map_some', Option.some_bind, group_node, List.getElem?_map] at h
      cases ha : g.annotations.nodes[j]? with
      | none => simp [ha] at h
      | some a =>
        simp only [ha, Option.map_some', Option.some.injEq] at h
        have hgm : g ∈ color_groups src (ml :: mls) := List.getElem?_mem hg
        have ham : a ∈ g.annotations.nodes := List.getElem?_mem ha
        rw [mem_color_groups] at hgm
        rw [hgm.2, mem_members_of] at ham
        exact ⟨g, a, rfl, ha, ham.1, h.symm⟩

theorem row_path_depth (src : GdkRGBA) (annots : List EvMappingList) (path : List Nat)
    (row : Row) (h : gtk_tree_model_get_iter (result_model src annots) path = some row) :
    path.length = 1 ∨ path.length = 2 := by
  match path, h with
  | [], h => cases annots <;> simp [result_model, no_annotations_model, gtk_tree_model_get_iter] at h
  | [_], _ => exact Or.inl rfl
  | [_, _], _ => exact Or.inr rfl
  | _ :: _ :: _ :: _, h =>
    cases annots <;> simp [result_model, no_annotations_model, gtk_tree_model_get_iter] at h

/-- C12. In every model `job_finished_callback` publishes, and in the initial
`Loading…` model, a row exists only at depth one (placeholder row, group
header row) or two (leaf). On a leaf `iter_has_mapping` answers true and
yields the annotation of the input the leaf was built from: the member, at
the position of the leaf, of the group at the position of its parent. On a
group header row and on a placeholder row it answers false and leaves the
variable of the caller as it was, and the activation of such a row emits
nothing. -/
theorem C12_iter_has_mapping_on_published_rows (src : GdkRGBA) (annots : List EvMappingList) :
    (∀ (job : Nat) (w : Sidebar), w.gdkrgba_comparator_source = src →
      (job_finished_callback job annots w).priv.tree_view.model = result_model src annots) ∧
    (∀ (path : List Nat) (row : Row),
      gtk_tree_model_get_iter (result_model src annots) path = some row →
        path.length = 1 ∨ path.length = 2) ∧
    (∀ (i j : Nat) (row : Row),
      gtk_tree_model_get_iter (result_model src annots) [i, j] = some row →
      ∃ g a, (color_groups src annots)[i]? = some g ∧ g.annotations.nodes[j]? = some a ∧
        a ∈ markup_annots annots ∧ row = leaf_row a ∧
        ∀ mapping_out : gpointer,
          iter_has_mapping row mapping_out = (true, gpointer.to_annot a)) ∧
    (∀ (i : Nat) (row : Row),
      gtk_tree_model_get_iter (result_model src annots) [i] = some row →
      (∀ mapping_out : gpointer, iter_has_mapping row mapping_out = (false, mapping_out)) ∧
      (∀ w : Sidebar, ev_sidebar_annotations_activate_result_at_iter w row = w)) ∧
    (ev_sidebar_annotations_init.priv.tree_view.model = loading_model ∧
      ∀ (path : List Nat) (row : Row), gtk_tree_model_get_iter loading_model path = some row →
        path = [0] ∧
        (∀ mapping_out : gpointer, iter_has_mapping row mapping_out = (false, mapping_out)) ∧
        (∀ w : Sidebar, ev_sidebar_annotations_activate_result_at_iter w row = w)) := by
  refine ⟨?_, ?_, ?_, ?_, ?_, ?_⟩
  · intro job w hw
    rw [← hw]
    exact (job_finished_callback_frame job annots w).2.2.2
  · intro path row h
    exact row_path_depth src annots path row h
  · intro i j row h
    obtain ⟨g, a, hg, ha, ham, hrow⟩ := leaf_row_at src annots i j row h
    refine ⟨g, a, hg, ha, ham, hrow, ?_⟩
    intro mapping_out
    rw [hrow]
    simp [iter_has_mapping, leaf_row_annot_mapping]
  · intro i row h
    have hnull := header_row_null src annots i row h
    exact ⟨fun out => iter_has_mapping_null row hnull out, fun w => activate_null w row hnull⟩
  · rfl
  · intro path row h
    have hp : path = [0] ∧ row.annot_mapping = gpointer.NULL := by
      match path, h with
      | [], h => simp [loading_model, gtk_tree_model_get_iter] at h
      | [0], h =>
        simp [loading_model, gtk_tree_model_get_iter] at h
        rw [← h]
        exact ⟨rfl, rfl⟩
      | [n + 1], h => simp [loading_model, gtk_tree_model_get_iter] at h
      | _ :: _ :: _, h => simp [loading_model, gtk_tree_model_get_iter] at h
    exact ⟨hp.1, fun out => iter_has_mapping_null row hp.2 out,
      fun w => activate_null w row hp.2⟩

/-! ## C13: the context-menu press on a leaf -/

theorem published_leaf_back_reference (src : GdkRGBA) (annots : List EvMappingList)
    (node : TreeNode) (hnode : node ∈ published_tree src annots) (leaf : Row)
    (hleaf : leaf ∈ node.children) :
    (∃ a ∈ markup_annots annots, leaf.annot_mapping = gpointer.to_annot a) ∧
    (∀ mapping : EvMapping, leaf.annot_mapping ≠ gpointer.to_mapping mapping) ∧
    mapping_data_is_annot leaf.annot_mapping = none := by
  obtain ⟨a, ha, rfl⟩ := published_leaf_is_leaf_row src annots node hnode leaf hleaf
  refine ⟨⟨a, ha, rfl⟩, ?_, rfl⟩
  intro mapping h
  rw [leaf_row_annot_mapping] at h
  exact gpointer.noConfusion h

/-- The handler on a row that holds a pointer to a mapping, the row being
selected already: it emits `annot-activated` with the mapping, asks the
window to prepare the popup for the annotation of the mapping, pops the menu
up at the rectangle of width and height one at the event position, and stops
the event. -/
theorem context_menu_press_on_mapping (w : Sidebar) (x y : ℚ) (path : List Nat) (row : Row)
    (mapping : EvMapping)
    (hrow : gtk_tree_model_get_iter w.priv.tree_view.model path = some row)
    (hmap : row.annot_mapping = gpointer.to_mapping mapping)
    (hsel : w.priv.tree_view.selected = some path) :
    sidebar_tree_button_press_cb (context_menu_press x y path) w =
      some (true,
        { w with
          priv := { w.priv with popup := true },
          emitted := w.emitted ++
            [Effect.annot_activated (gpointer.to_mapping mapping),
             Effect.handle_annot_popup mapping.data,
             Effect.menu_popup_at_rect
               { x := double_to_int x, y := double_to_int y, width := 1, height := 1 }] }) := by
  have hsel2 : ∀ e : List Effect,
      gtk_tree_selection_select_iter { w with emitted := e } path = { w with emitted := e } := by
    intro e
    simp [gtk_tree_selection_select_iter, hsel]
  simp [sidebar_tree_button_press_cb, context_menu_press, hrow, iter_has_mapping, hmap,
    ev_sidebar_annotations_activate_result_at_iter, mapping_data_is_annot, hsel2,
    ev_sidebar_annotations_popup_menu_show]

/-- C13 fails on the code: the leaf published for an annotation holds, in the
back-reference column, the pointer to the annotation itself, while
`sidebar_tree_button_press_cb` and `ev_sidebar_annotations_popup_menu_show`
read the column as a pointer to a mapping and take its member `data`. On the
leaf at path `[0, 0]` of the tree published for the sample document the read
`annot_mapping->data` of a context-menu press is outside the model, and so is
the outcome of the press. No published leaf holds a mapping. On a row that
does hold a mapping the handler does what the claim says. -/
theorem C13_leaf_back_reference_is_not_a_mapping :
    gtk_tree_model_get_iter after_one_load.priv.tree_view.model [0, 0] =
      some (leaf_row (sample_note yellow)) ∧
    (leaf_row (sample_note yellow)).annot_mapping = gpointer.to_annot (sample_note yellow) ∧
    mapping_data_is_annot (leaf_row (sample_note yellow)).annot_mapping = none ∧
    sidebar_tree_button_press_cb (context_menu_press 3 4 [0, 0]) after_one_load = none ∧
    gtk_widget_button_press_event (context_menu_press 3 4 [0, 0]) after_one_load = none ∧
    (∀ (src : GdkRGBA) (annots : List EvMappingList),
      ∀ node ∈ published_tree src annots, ∀ leaf ∈ node.children,
        (∃ a ∈ markup_annots annots, leaf.annot_mapping = gpointer.to_annot a) ∧
        (∀ mapping : EvMapping, leaf.annot_mapping ≠ gpointer.to_mapping mapping) ∧
        mapping_data_is_annot leaf.annot_mapping = none) ∧
    (∀ (w : Sidebar) (x y : ℚ) (path : List Nat) (row : Row) (mapping : EvMapping),
      gtk_tree_model_get_iter w.priv.tree_view.model path = some row →
      row.annot_mapping = gpointer.to_mapping mapping →
      w.priv.tree_view.selected = some path →
      sidebar_tree_button_press_cb (context_menu_press x y path) w =
        some (true,
          { w with
            priv := { w.priv with popup := true },
            emitted := w.emitted ++
              [Effect.annot_activated (gpointer.to_mapping mapping),
               Effect.handle_annot_popup mapping.data,
               Effect.menu_popup_at_rect
                 { x := double_to_int x, y := double_to_int y, width := 1, height := 1 }] })) := by
  obtain ⟨hv, _, _, _, _⟩ := after_one_load_view
  have hrow : gtk_tree_model_get_iter after_one_load.priv.tree_view.model [0, 0] =
      some (leaf_row (sample_note yellow)) := by
    rw [hv]
    exact sample_leaf_row black
  have hcb : sidebar_tree_button_press_cb (context_menu_press 3 4 [0, 0]) after_one_load =
      none := by
    simp [sidebar_tree_button_press_cb, context_menu_press, hrow, iter_has_mapping,
      leaf_row_annot_mapping, mapping_data_is_annot]
  refine ⟨hrow, rfl, rfl, hcb, ?_, ?_, ?_⟩
  · have hn : after_one_load.priv.tree_view.button_press_handlers = 1 := by rw [hv]
    unfold gtk_widget_button_press_event
    rw [hn, run_button_press_handlers, hcb]
  · intro src annots node hnode leaf hleaf
    exact published_leaf_back_reference src annots node hnode leaf hleaf
  · intro w x y path row mapping hrow hmap hsel
    exact context_menu_press_on_mapping w x y path row mapping hrow hmap hsel

/-! ## C14: the grouping result does not depend on the global -/

theorem grouping_pass_map (src : GdkRGBA) (annots : List EvMappingList) :
    (grouping_pass src annots).map = map_of (markup_annots annots) := by
  obtain ⟨src2, h⟩ := foldl_pages annots src []
  have h0 : (linked_list_init : _LinkedList _ColorAnnotations) = map_of [] := by
    simp [map_of, linked_list_init, remove_repeats_nil]
  simp only [grouping_pass, h0, h, List.nil_append]

/-- C14. The list of colour groups the grouping pass builds, with the order
of the groups and the order of the members of each group, is the same
whatever value the global `gdkrgba_comparator_source` holds when the pass
starts; so are the published tree and the model a completion publishes, also
when the completion is processed in the state a previous completion left. -/
theorem C14_grouping_is_deterministic (src1 src2 : GdkRGBA) (annots : List EvMappingList) :
    (grouping_pass src1 annots).map = (grouping_pass src2 annots).map ∧
    color_groups src1 annots = color_groups src2 annots ∧
    (color_groups src1 annots).map (fun g => g.rgba) =
      (color_groups src2 annots).map (fun g => g.rgba) ∧
    (color_groups src1 annots).map (fun g => g.annotations.nodes) =
      (color_groups src2 annots).map (fun g => g.annotations.nodes) ∧
    published_tree src1 annots = published_tree src2 annots ∧
    (∀ (job1 job2 : Nat) (w1 w2 : Sidebar),
      (job_finished_callback job1 annots w1).priv.tree_view.model =
        (job_finished_callback job2 annots w2).priv.tree_view.model) ∧
    (∀ (job1 job2 : Nat) (w : Sidebar),
      (job_finished_callback job2 annots
          (job_finished_callback job1 annots w)).priv.tree_view.model =
        (job_finished_callback job1 annots w).priv.tree_view.model) := by
  have hmap : (grouping_pass src1 annots).map = (grouping_pass src2 annots).map := by
    rw [grouping_pass_map, grouping_pass_map]
  have hgroups : color_groups src1 annots = color_groups src2 annots := by
    simp only [color_groups, hmap]
  have htree : ∀ s1 s2 : GdkRGBA, published_tree s1 annots = published_tree s2 annots := by
    intro s1 s2
    simp only [published_tree, grouping_pass_map]
  have hmodel : ∀ s1 s2 : GdkRGBA, result_model s1 annots = result_model s2 annots := by
    intro s1 s2
    cases annots with
    | nil => rfl
    | cons ml mls => simp only [result_model, htree s1 s2]
  have hcb : ∀ (job1 job2 : Nat) (w1 w2 : Sidebar),
      (job_finished_callback job1 annots w1).priv.tree_view.model =
        (job_finished_callback job2 annots w2).priv.tree_view.model := by
    intro job1 job2 w1 w2
    rw [(job_finished_callback_frame job1 annots w1).2.2.2,
      (job_finished_callback_frame job2 annots w2).2.2.2]
    exact hmodel _ _
  refine ⟨hmap, hgroups, ?_, ?_, htree src1 src2, hcb, ?_⟩
  · rw [hgroups]
  · rw [hgroups]
  · intro job1 job2 w
    exact hcb job2 job1 _ w

/-! ## C15: no empty group -/

theorem publish_group_found (model : List TreeNode) (g : _ColorAnnotations) :
    publish_group model g =
      if (publish_leaves { row := swatch_row g.rgba, children := [] } g).2 = false then model
      else model ++ [(publish_leaves { row := swatch_row g.rgba, children := [] } g).1] := rfl

theorem publish_leaves_eq (iter : TreeNode) (g : _ColorAnnotations) :
    publish_leaves iter g =
      ({ iter with children := iter.children ++ g.annotations.nodes.map leaf_row },
        !g.annotations.nodes.isEmpty) := by
  unfold publish_leaves
  rw [publish_children_foldl]
  simp

/-- C15. Every group the grouping pass builds has at least one member, and
its count field says so. The publication of a group keeps the group row
exactly when `found` is true after the inner loop; for every group built
`found` is true, the group row is kept, the tree has as many group rows as
there are groups, and every group row has a leaf. -/
theorem C15_no_empty_group (src : GdkRGBA) (annots : List EvMappingList) :
    (∀ g ∈ color_groups src annots,
      g.annotations.nodes ≠ [] ∧ 1 ≤ g.annotations.nodes.length ∧
      g.annotations.size = g.annotations.nodes.length) ∧
    (∀ (g : _ColorAnnotations) (model : List TreeNode),
      publish_group model g =
        if (publish_leaves { row := swatch_row g.rgba, children := [] } g).2 = false then model
        else model ++ [(publish_leaves { row := swatch_row g.rgba, children := [] } g).1]) ∧
    (∀ g ∈ color_groups src annots, ∀ iter : TreeNode, (publish_leaves iter g).2 = true) ∧
    (∀ g ∈ color_groups src annots, ∀ model : List TreeNode,
      publish_group model g = model ++ [group_node g]) ∧
    (published_tree src annots).length = (color_groups src annots).length ∧
    (∀ node ∈ published_tree src annots, node.children ≠ [] ∧ 1 ≤ node.children.length) ∧
    (∀ (job : Nat) (ml : EvMappingList) (mls : List EvMappingList) (w : Sidebar),
      (job_finished_callback job (ml :: mls) w).priv.tree_view.model =
        GtkTreeModel.tree_store (published_tree w.gdkrgba_comparator_source (ml :: mls))) := by
  have hne := color_group_nonempty src annots
  refine ⟨?_, fun g model => publish_group_found model g, ?_, ?_, ?_, ?_,
    fun job ml mls w => job_finished_callback_model job ml mls w⟩
  · intro g hg
    refine ⟨hne g hg, List.length_pos.2 (hne g hg), ?_⟩
    rw [mem_color_groups] at hg
    rw [hg.2]
    rfl
  · intro g hg iter
    rw [publish_leaves_eq]
    cases hn : g.annotations.nodes with
    | nil => exact absurd hn (hne g hg)
    | cons a l => rfl
  · intro g hg model
    rw [publish_group_eq, if_neg (hne g hg)]
  · rw [published_tree_eq, List.length_map]
  · intro node hnode
    rw [published_tree_eq] at hnode
    obtain ⟨g, hg, rfl⟩ := List.mem_map.1 hnode
    have h1 : (group_node g).children ≠ [] := by
      simp only [group_node, ne_eq, List.map_eq_nil_iff]
      exact hne g hg
    exact ⟨h1, List.length_pos.2 h1⟩

/-! ## C16: a load leaves the shown model alone -/

theorem load_frame (w : Sidebar) :
    (ev_sidebar_annotations_load w).priv.tree_view = w.priv.tree_view ∧
    (ev_sidebar_annotations_load w).priv.document = w.priv.document ∧
    (ev_sidebar_annotations_load w).priv.popup = w.priv.popup ∧
    (ev_sidebar_annotations_load w).priv.selection_changed_id = w.priv.selection_changed_id ∧
    (ev_sidebar_annotations_load w).gdkrgba_comparator_source = w.gdkrgba_comparator_source ∧
    (ev_sidebar_annotations_load w).emitted = w.emitted ∧
    (ev_sidebar_annotations_load w).priv.job = some w.next_job :=
  ⟨rfl, rfl, rfl, rfl, rfl, rfl, rfl⟩

theorem trigger_tree_view (w : Sidebar) (e : Event) (h : is_load_trigger e = true) :
    (step w e).priv.tree_view = w.priv.tree_view := by
  cases e with
  | document_changed document is_document_annotations =>
    simp only [step, ev_sidebar_annotations_document_changed_cb]
    by_cases hd : is_document_annotations = false
    · simp only [hd, if_true]
    · simp only [hd, if_false]
      rfl
  | annot_added => rfl
  | annot_changed => rfl
  | annot_removed => rfl
  | job_finished job annots => simp [is_load_trigger] at h

theorem triggers_tree_view (events : List Event) (w : Sidebar)
    (h : ∀ e ∈ events, is_load_trigger e = true) :
    (run w events).priv.tree_view = w.priv.tree_view := by
  induction events generalizing w with
  | nil => rfl
  | cons e es ih =>
    have h1 := trigger_tree_view w e (h e (List.mem_cons_self _ _))
    have h2 := ih (step w e) (fun e2 he2 => h e2 (List.mem_cons_of_mem _ he2))
    exact h2.trans h1

theorem activate_priv (w : Sidebar) (row : Row) :
    (ev_sidebar_annotations_activate_result_at_iter w row).priv = w.priv := by
  unfold ev_sidebar_annotations_activate_result_at_iter
  simp only
  split_ifs <;> rfl

theorem selection_changed_cb_priv (w : Sidebar) : (selection_changed_cb w).priv = w.priv := by
  unfold selection_changed_cb
  simp only
  cases w.priv.tree_view.selected with
  | none => rfl
  | some path =>
    simp only
    cases gtk_tree_model_get_iter w.priv.tree_view.model path with
    | none => rfl
    | some row => exact activate_priv w row

theorem iterate_selection_changed_cb_priv (n : Nat) (w : Sidebar) :
    (Nat.iterate selection_changed_cb n w).priv = w.priv := by
  induction n generalizing w with
  | zero => rfl
  | succ n ih =>
    rw [Function.iterate_succ_apply, ih, selection_changed_cb_priv]

theorem select_iter_model (w : Sidebar) (path : List Nat) :
    (gtk_tree_selection_select_iter w path).priv.tree_view.model = w.priv.tree_view.model := by
  unfold gtk_tree_selection_select_iter
  simp only
  split_ifs
  · rfl
  · rfl
  · rw [iterate_selection_changed_cb_priv]

theorem popup_menu_show_model (w w2 : Sidebar) (rect : GdkRectangle) (annot_mapping : gpointer)
    (b : Bool) (h : ev_sidebar_annotations_popup_menu_show w rect annot_mapping = some (b, w2)) :
    w2.priv.tree_view.model = w.priv.tree_view.model := by
  unfold ev_sidebar_annotations_popup_menu_show at h
  cases hm : mapping_data_is_annot annot_mapping with
  | none => simp [hm] at h
  | some r =>
    obtain ⟨is_annot, annot⟩ := r
    cases is_annot with
    | false =>
      simp [hm] at h
      rw [← h.2]
    | true =>
      simp [hm] at h
      rw [← h.2]

theorem button_press_cb_model (event : GdkEventButton) (w w2 : Sidebar) (b : Bool)
    (h : sidebar_tree_button_press_cb event w = some (b, w2)) :
    w2.priv.tree_view.model = w.priv.tree_view.model := by
  unfold sidebar_tree_button_press_cb at h
  cases hp : event.path with
  | none =>
    simp [hp] at h
    rw [← h.2]
  | some path =>
    simp only [hp] at h
    cases hrow : gtk_tree_model_get_iter w.priv.tree_view.model path with
    | none => simp [hrow] at h
    | some iter =>
      simp only [hrow] at h
      split_ifs at h with hc
      · cases hm : mapping_data_is_annot (iter_has_mapping iter gpointer.NULL).2 with
        | none => simp [hm] at h
        | some r =>
          obtain ⟨is_annot, annot⟩ := r
          cases is_annot with
          | false =>
            simp [hm] at h
            rw [← h.2, activate_priv]
          | true =>
            simp only [hm] at h
            cases hs : ev_sidebar_annotations_popup_menu_show
                (gtk_tree_selection_select_iter
                  (ev_sidebar_annotations_activate_result_at_iter w iter) path)
                { x := double_to_int event.x, y := double_to_int event.y, width := 1,
                  height := 1 }
                (iter_has_mapping iter gpointer.NULL).2 with
            | none => simp [hs] at h
            | some r2 =>
              obtain ⟨b2, w3⟩ := r2
              simp [hs] at h
              rw [← h.2, popup_menu_show_model _ _ _ _ _ hs, select_iter_model, activate_priv]
      · simp at h
        rw [← h.2]
        exact select_iter_model w path
      · simp at h
        rw [← h.2, activate_priv]

theorem run_button_press_handlers_model (n : Nat) (event : GdkEventButton) (w w2 : Sidebar)
    (b : Bool) (h : run_button_press_handlers n event w = some (b, w2)) :
    w2.priv.tree_view.model = w.priv.tree_view.model := by
  induction n generalizing w with
  | zero =>
    simp [run_button_press_handlers] at h
    rw [← h.2]
  | succ n ih =>
    rw [run_button_press_handlers] at h
    cases hcb : sidebar_tree_button_press_cb event w with
    | none => simp [hcb] at h
    | some r =>
      obtain ⟨stop, w3⟩ := r
      have hm := button_press_cb_model event w w3 stop hcb
      cases stop with
      | true =>
        simp [hcb] at h
        rw [← h.2, hm]
      | false =>
        simp only [hcb] at h
        rw [ih w3 h, hm]

theorem button_press_event_model (event : GdkEventButton) (w w2 : Sidebar)
    (h : gtk_widget_button_press_event event w = some w2) :
    w2.priv.tree_view.model = w.priv.tree_view.model := by
  unfold gtk_widget_button_press_event at h
  cases hr : run_button_press_handlers w.priv.tree_view.button_press_handlers event w with
  | none => simp [hr] at h
  | some r =>
    obtain ⟨stop, w3⟩ := r
    have hm := run_button_press_handlers_model _ event w w3 stop hr
    cases stop with
    | true =>
      simp [hr] at h
      rw [← h, hm]
    | false =>
      simp only [hr] at h
      cases hp : event.path with
      | none =>
        simp [hp] at h
        rw [← h, hm]
      | some path =>
        simp only [hp] at h
        split_ifs at h
        · simp at h
          rw [← h, hm]
        · simp at h
          rw [← h, select_iter_model, hm]

/-- C16. In every state, `ev_sidebar_annotations_load` and the three
annotation triggers leave the tree view, with the model it shows, as they
found it, and the document handler does so too; what a load changes is the
job field and the job objects. The model is the `Loading…` placeholder at the
start and stays what it was through any sequence of load triggers; a button
press does not replace it either. In a state the controller reaches, an event that changes the shown model is the
completion notification of the held job, and that notification installs the
model of the result of the job. -/
theorem C16_load_keeps_shown_model (w : Sidebar) :
    ((ev_sidebar_annotations_load w).priv.tree_view = w.priv.tree_view ∧
      (ev_sidebar_annotations_load w).priv.document = w.priv.document ∧
      (ev_sidebar_annotations_load w).priv.popup = w.priv.popup ∧
      (ev_sidebar_annotations_load w).priv.selection_changed_id =
        w.priv.selection_changed_id ∧
      (ev_sidebar_annotations_load w).gdkrgba_comparator_source =
        w.gdkrgba_comparator_source ∧
      (ev_sidebar_annotations_load w).emitted = w.emitted ∧
      (ev_sidebar_annotations_load w).priv.job = some w.next_job) ∧
    (ev_sidebar_annotations_annot_added w).priv.tree_view = w.priv.tree_view ∧
    (ev_sidebar_annotations_annot_changed w).priv.tree_view = w.priv.tree_view ∧
    (ev_sidebar_annotations_annot_removed w).priv.tree_view = w.priv.tree_view ∧
    (∀ (document : Nat) (is_document_annotations : Bool),
      (ev_sidebar_annotations_document_changed_cb document is_document_annotations
        w).priv.tree_view = w.priv.tree_view) ∧
    ev_sidebar_annotations_init.priv.tree_view.model = loading_model ∧
    (∀ triggers : List Event, (∀ e ∈ triggers, is_load_trigger e = true) →
      (run w triggers).priv.tree_view = w.priv.tree_view) ∧
    (∀ (event : GdkEventButton) (after : Sidebar),
      gtk_widget_button_press_event event w = some after →
      after.priv.tree_view.model = w.priv.tree_view.model) ∧
    (∀ (events : List Event) (e : Event),
      (step (run ev_sidebar_annotations_init events) e).priv.tree_view.model ≠
        (run ev_sidebar_annotations_init events).priv.tree_view.model →
      ∃ (job : Nat) (annots : List EvMappingList),
        e = Event.job_finished job annots ∧
        (run ev_sidebar_annotations_init events).priv.job = some job) ∧
    (∀ (events : List Event) (job : Nat) (annots : List EvMappingList),
      (run ev_sidebar_annotations_init events).priv.job = some job →
      (step (run ev_sidebar_annotations_init events)
          (Event.job_finished job annots)).priv.tree_view.model =
        result_model (run ev_sidebar_annotations_init events).gdkrgba_comparator_source
          annots) := by
  refine ⟨load_frame w, rfl, rfl, rfl, ?_, rfl, ?_, ?_, ?_, ?_⟩
  · intro document is_document_annotations
    exact trigger_tree_view w (Event.document_changed document is_document_annotations) rfl
  · intro triggers h
    exact triggers_tree_view triggers w h
  · intro event after h
    exact button_press_event_model event w after h
  · intro events e hne
    have hinv := run_invariant events _ init_invariant
    cases e with
    | job_finished job annots =>
      refine ⟨job, annots, rfl, ?_⟩
      by_contra hheld
      apply hne
      simp only [step]
      rw [emit_finished_not_held job annots _ hinv hheld]
    | document_changed document is_document_annotations =>
      exact absurd (congrArg GtkTreeView.model
        (trigger_tree_view _ (Event.document_changed document is_document_annotations) rfl)) hne
    | annot_added =>
      exact absurd (congrArg GtkTreeView.model (trigger_tree_view _ Event.annot_added rfl)) hne
    | annot_changed =>
      exact absurd (congrArg GtkTreeView.model (trigger_tree_view _ Event.annot_changed rfl)) hne
    | annot_removed =>
      exact absurd (congrArg GtkTreeView.model (trigger_tree_view _ Event.annot_removed rfl)) hne
  · intro events job annots hheld
    have hinv := run_invariant events _ init_invariant
    simp only [step]
    rw [emit_finished_held job annots _ hinv hheld]
    exact (job_finished_callback_frame job annots _).2.2.2

end Evince
